import Mathlib

/-!
Shallow embedding of the PNS search core of the spots repository
(modules/spots_cpp), together with theorems settling the spec claims.

Conventions of the embedding:
* C++ unsigned 64-bit values of `ProofNumbers::Value<uint64_t>` are `Nat`
  restricted to `≤ INF` where `INF = 2^64 - 1` (`std::numeric_limits::max`),
  the saturating infinity.
* Operations that can throw (`std::overflow_error`, `std::underflow_error`)
  return `Except PNErr _`.
* `Nimber` is the `uint8` nimber value; reachable values are `< 256` and
  wrap-around casts are modelled by `% 256`.
* The opaque Sprouts `Position` is its list of lands (`children` of
  `Structure<Position, Land>`); the land type is a type parameter.
-/

namespace Spots

/-- The `Outcome` enum of global.hpp. -/
inductive Outcome where
  | Win
  | Loss
  | Unknown
deriving DecidableEq, Repr

/-- The value `std::numeric_limits<uint64_t>::max()`, i.e. `PN::INF` of
proof_numbers.hpp. -/
def INF : Nat := 2 ^ 64 - 1

/-- The two arithmetic error kinds `ProofNumbers::Value` can throw:
`std::overflow_error` and `std::underflow_error`. -/
inductive PNErr where
  | overflow
  | underflow
deriving DecidableEq, Repr

namespace PNV

/-- `ProofNumbers::Value::operator+` (also `operator+=`, same semantics):
saturates when an operand is `INF`, throws `std::overflow_error` when a
finite addition would reach or exceed the maximum
(`will_addition_overflow(a,b) = a >= MAX - b`). -/
def add (a b : Nat) : Except PNErr Nat :=
  if a = INF ∨ b = INF then .ok INF
  else if INF - b ≤ a then .error .overflow
  else .ok (a + b)

/-- `ProofNumbers::Value::operator-` (also `operator-=`): `INF - INF` throws
`std::underflow_error`, `INF - finite = INF`, and a finite subtraction that
would underflow throws `std::underflow_error`. -/
def sub (a b : Nat) : Except PNErr Nat :=
  if a = INF then
    if b = INF then .error .underflow else .ok INF
  else if a < b then .error .underflow
  else .ok (a - b)

/-- `ProofNumbers::Value::operator<`. -/
def lt (a b : Nat) : Bool :=
  if a = INF then false
  else if b = INF then true
  else decide (a < b)

/-- `std::min` on `Value`, i.e. `(b < a) ? b : a`. -/
def vmin (a b : Nat) : Nat := if lt b a then b else a

/-- `std::max` on `Value`, i.e. `(a < b) ? b : a`. -/
def vmax (a b : Nat) : Nat := if lt a b then b else a

end PNV

/-- The `ProofNumbers` pair `(proof, disproof)` of proof_numbers.hpp. -/
structure ProofNumbers where
  proof : Nat
  disproof : Nat
deriving DecidableEq, Repr

namespace ProofNumbers

/-- `ProofNumbers::isWin`: `proof == 0`. -/
def isWin (p : ProofNumbers) : Bool := p.proof = 0

/-- `ProofNumbers::isLoss`: `disproof == 0`. -/
def isLoss (p : ProofNumbers) : Bool := p.disproof = 0

/-- `ProofNumbers::isProved`. -/
def isProved (p : ProofNumbers) : Bool := p.isWin || p.isLoss

/-- `ProofNumbers::toOutcome`. -/
def toOutcome (p : ProofNumbers) : Outcome :=
  if p.proof = 0 then .Win else if p.disproof = 0 then .Loss else .Unknown

end ProofNumbers

/-- `DfpnSolver::StoredNodeInfo` of dfpn.hpp: the value stored in the
transposition table. -/
structure StoredNodeInfo where
  proofNumbers : ProofNumbers
  iterations : Nat
deriving DecidableEq, Repr

namespace StoredNodeInfo

/-- `StoredNodeInfo::update`: a proved entry is never overwritten; otherwise
the proof numbers are replaced and iteration counters merged with `max`. -/
def update (v other : StoredNodeInfo) : StoredNodeInfo :=
  if v.proofNumbers.isProved then v
  else { proofNumbers := other.proofNumbers,
         iterations := max v.iterations other.iterations }

/-- `StoredNodeInfo::operator<`:
`proofNumbers.isProved() || iterations < other.iterations`. -/
def lt (v other : StoredNodeInfo) : Bool :=
  v.proofNumbers.isProved || decide (v.iterations < other.iterations)

end StoredNodeInfo

section BucketTableModel

variable {Key Value : Type} [DecidableEq Key]

/-- `BucketTable::BUCKET_SIZE`. -/
def BUCKET_SIZE : Nat := 4

/-- `BucketTable::TTEntry`. -/
structure TTEntry (Key Value : Type) where
  key : Key
  value : Value
  occupied : Bool
deriving DecidableEq, Repr

/-- The bucket table: `data` is the vector of buckets (each a `BUCKET_SIZE`
array of entries) and `tsize` the atomic `_size` counter. Locks are dropped:
the sequential semantics of each operation is modelled. -/
structure BucketTable (Key Value : Type) where
  data : List (List (TTEntry Key Value))
  tsize : Nat
deriving DecidableEq, Repr

/-- The `BucketTable(capacity, threadSafe)` constructor:
`data.resize(capacity / BUCKET_SIZE)` buckets of default-constructed
(`occupied = false`) entries; `kDef`/`vDef` are the default-constructed
`Key{}`/`Value{}`. -/
def mkBucketTable (kDef : Key) (vDef : Value) (capacity : Nat) : BucketTable Key Value :=
  { data := List.replicate (capacity / BUCKET_SIZE)
      (List.replicate BUCKET_SIZE ⟨kDef, vDef, false⟩),
    tsize := 0 }

/-- The scan loop of `BucketTable::insert`: walks `todo` (the suffix of the
bucket from index `i`), breaking with `i` at the first unoccupied or
key-matching slot, and otherwise lowering `r` to any index whose value is
`vLt`-less than the value at the current `r`. -/
def insertScanGo (vLt : Value → Value → Bool) (entries : List (TTEntry Key Value))
    (key : Key) : List (TTEntry Key Value) → Nat → Nat → Nat
  | [], _, r => r
  | e :: rest, i, r =>
    if !e.occupied || e.key = key then i
    else
      let r' :=
        if i ≠ 0 && (match entries[r]? with
                     | some er => vLt e.value er.value
                     | none => false)
        then i else r
      insertScanGo vLt entries key rest (i + 1) r'

/-- `replaceIdx` as computed by the loop in `BucketTable::insert`. -/
def insertScan (vLt : Value → Value → Bool) (entries : List (TTEntry Key Value))
    (key : Key) : Nat :=
  insertScanGo vLt entries key entries 0 0

/-- The per-bucket part of `BucketTable::insert`: returns the original value
at a matching key (else none), the new bucket, and whether `_size` grew. -/
def bucketInsert (vLt : Value → Value → Bool) (vUpdate : Value → Value → Value)
    (entries : List (TTEntry Key Value)) (key : Key) (value : Value) :
    Option Value × List (TTEntry Key Value) × Bool :=
  let r := insertScan vLt entries key
  match entries[r]? with
  | none => (none, entries, false)
  | some e =>
    if !e.occupied then
      (none, entries.set r ⟨key, value, true⟩, true)
    else if e.key = key then
      (some e.value, entries.set r ⟨e.key, vUpdate e.value value, e.occupied⟩, false)
    else
      (none, entries.set r ⟨key, value, true⟩, false)

/-- `BucketTable::insert`: empty table is a silent no-op returning none;
otherwise operate on bucket `hash(key) % data.size()`. -/
def tableInsert (vLt : Value → Value → Bool) (vUpdate : Value → Value → Value)
    (hash : Key → Nat) (t : BucketTable Key Value) (key : Key) (value : Value) :
    Option Value × BucketTable Key Value :=
  if t.data.isEmpty then (none, t)
  else
    let idx := hash key % t.data.length
    match t.data[idx]? with
    | none => (none, t)
    | some bucket =>
      let r := bucketInsert vLt vUpdate bucket key value
      (r.1, { data := t.data.set idx r.2.1,
              tsize := if r.2.2 then t.tsize + 1 else t.tsize })

/-- `BucketTable::find` within one bucket: note the source compares keys
without checking `occupied`. -/
def bucketFind (entries : List (TTEntry Key Value)) (key : Key) :
    Option (TTEntry Key Value) :=
  entries.find? (fun e => e.key = key)

/-- `BucketTable::find`. -/
def tableFind (hash : Key → Nat) (t : BucketTable Key Value) (key : Key) :
    Option (TTEntry Key Value) :=
  if t.data.isEmpty then none
  else
    match t.data[hash key % t.data.length]? with
    | none => none
    | some bucket => bucketFind bucket key

/-- The loop of `BucketTable::mark`/`unmark`: apply `f` to the value of the
first occupied entry with a matching key. -/
def bucketMapAt (f : Value → Value) (key : Key) :
    List (TTEntry Key Value) → List (TTEntry Key Value)
  | [] => []
  | e :: rest =>
    if e.occupied && e.key = key then ⟨e.key, f e.value, e.occupied⟩ :: rest
    else e :: bucketMapAt f key rest

/-- `BucketTable::mark` (resp. `unmark`), with `f = value.mark(threadId)`
(resp. `unmark`): empty table is a silent no-op. -/
def tableMapAt (f : Value → Value) (hash : Key → Nat)
    (t : BucketTable Key Value) (key : Key) : BucketTable Key Value :=
  if t.data.isEmpty then t
  else
    let idx := hash key % t.data.length
    match t.data[idx]? with
    | none => t
    | some bucket => { t with data := t.data.set idx (bucketMapAt f key bucket) }

end BucketTableModel

/-- The `uint8` nimber value of nimber.hpp. Reachable values are `< 256`. -/
abbrev Nimber := Nat

/-- `Nimber::mergeNimbers(x, y) = x xor y`. -/
def mergeNimbers (x y : Nimber) : Nimber := x ^^^ y

/-- `Nimber::operator+(value_type)` with wrap-around of the `uint8` cast,
as used by `updateLands` for `nimber + 1`. -/
def nimberAdd1 (n : Nimber) : Nimber := (n + 1) % 256

/-- `Nimber::isWin`: `value != 0`. -/
def nimberIsWin (n : Nimber) : Bool := n ≠ 0

section CoupleModel

variable {L : Type} [DecidableEq L]

/-- A Sprouts `Position` is its list of lands (`Structure::children`). -/
abbrev Pos (L : Type) := List L

/-- `Position::isTerminal`: `children.size() == 0`. -/
def posIsTerminal (p : Pos L) : Bool := p.isEmpty

/-- `Position::isMultiLand`: `children.size() > 1`. -/
def posIsMultiLand (p : Pos L) : Bool := decide (p.length > 1)

/-- `Structure::empty`: `children.empty()`. -/
def posEmpty (p : Pos L) : Bool := p.isEmpty

/-- `Position::getSubgames`: one single-land position per land, in order. -/
def getSubgames (p : Pos L) : List (Pos L) := p.map (fun l => [l])

/-- The `Position(std::vector<Position>)` constructor: concatenation of the
lands of the given positions. -/
def posOfPositions (ps : List (Pos L)) : Pos L := ps.flatten

/-- The nimber database as consulted by `Couple`: `get` by position. -/
abbrev NimDb (L : Type) := Pos L → Option Nimber

/-- `Couple`: a position together with a nimber. -/
structure Couple (L : Type) where
  position : Pos L
  nimber : Nimber
deriving DecidableEq, Repr

/-- `Couple::getOutcome` for a normal impartial game (`Game::isNormalImpartial`
is `true` for Sprouts): terminal positions are `Win` iff the nimber is a win,
non-terminal couples are `Unknown`. -/
def getOutcome (c : Couple L) : Outcome :=
  if posIsTerminal c.position then
    if nimberIsWin c.nimber then .Win else .Loss
  else .Unknown

/-- The loop body of `Couple::mergeComputedLands`: fold over the subgames,
XOR-ing stored nimbers into the couple's nimber and keeping the uncomputed
subgames, tracking whether anything was merged. -/
def mergeLandsFold (db : NimDb L) :
    List (Pos L) → Nimber → List (Pos L) → Bool → Nimber × List (Pos L) × Bool
  | [], n, uncomputed, modified => (n, uncomputed, modified)
  | g :: rest, n, uncomputed, modified =>
    match db g with
    | some sn => mergeLandsFold db rest (mergeNimbers n sn) uncomputed true
    | none => mergeLandsFold db rest n (uncomputed ++ [g]) modified

/-- `Couple::mergeComputedLands(database)`: a no-op returning false when the
game is not normal impartial (never here: Sprouts is) or `position.empty()`;
otherwise merges every subgame found in the database into the nimber, keeps
the rest, and returns whether anything was merged. -/
def mergeComputedLands (db : NimDb L) (c : Couple L) : Couple L × Bool :=
  if posEmpty c.position then (c, false)
  else
    let r := mergeLandsFold db (getSubgames c.position) c.nimber [] false
    ({ position := posOfPositions r.2.1, nimber := r.1 }, r.2.2)

/-- Strict lexicographic `operator<` of `std::string`, over character lists. -/
def strLtB : List Char → List Char → Bool
  | [], [] => false
  | [], _ :: _ => true
  | _ :: _, [] => false
  | a :: as, b :: bs =>
    if a < b then true else if b < a then false else strLtB as bs

/-- Decimal digits of a natural number, as produced by `std::to_string`. -/
def natToDigits (n : Nat) : List Char :=
  if n < 10 then [Nat.digitChar n]
  else natToDigits (n / 10) ++ [Nat.digitChar (n % 10)]
decreasing_by
  exact Nat.div_lt_self (by omega) (by omega)

variable (livesP : Pos L → Nat) (estChildren : Pos L → Nat) (posStr : Pos L → List Char)

/-- `Couple::to_string`: position string, the space separator, then the
decimal nimber. -/
def coupleStr (c : Couple L) : List Char :=
  posStr c.position ++ (' ' :: natToDigits c.nimber)

/-- `heuristics::DefaultCoupleComparer` for a normal impartial game: order by
`lives + 4*nimber`, then by descending subgame count, then by children
estimate, then by the couple string. -/
def coupleCmp (first second : Couple L) : Bool :=
  let fl := livesP first.position + 4 * first.nimber
  let sl := livesP second.position + 4 * second.nimber
  if fl ≠ sl then decide (fl < sl)
  else
    let fn := first.position.length
    let sn := second.position.length
    if fn ≠ sn then decide (fn > sn)
    else
      let fc := estChildren first.position
      let sc := estChildren second.position
      if fc ≠ sc then decide (fc < sc)
      else strLtB (coupleStr posStr first) (coupleStr posStr second)

/-- The non-strict complement of `DefaultCoupleComparer`, the order in which
`std::sort` leaves the children vector. -/
def coupleLe (a b : Couple L) : Bool :=
  !coupleCmp livesP estChildren posStr b a

variable (posChildren : Pos L → List (Pos L))

/-- The position-children loop of `Couple::computeChildren(db, children)`
(the `isNormalImpartial` short-circuit branch for misère games is dead code
for Sprouts): fold each position child through the database, return `Win` on
a terminal losing fold, drop terminal winning folds, collect survivors, and
finally return `Loss` when no child survived, else `Unknown` with the
children sorted by `DefaultCoupleComparer`. -/
def computeChildrenGo (db : NimDb L) (nimber : Nimber) :
    List (Pos L) → List (Couple L) → Outcome × List (Couple L)
  | [], acc =>
    if acc.isEmpty then (.Loss, acc)
    else (.Unknown, acc.mergeSort (coupleLe livesP estChildren posStr))
  | pc :: rest, acc =>
    let folded := (mergeComputedLands db { position := pc, nimber := nimber }).1
    if posIsTerminal folded.position then
      if getOutcome folded = .Loss then (.Win, acc)
      else computeChildrenGo db nimber rest acc
    else computeChildrenGo db nimber rest (acc ++ [folded])

/-- `Couple::computeChildren(database, children)`: immediate outcome for
terminal couples; otherwise the nim children `(position, k)` for
`k ∈ [0..nimber)` followed by the folded position children. -/
def computeChildren (db : NimDb L) (c : Couple L) : Outcome × List (Couple L) :=
  let outcome := getOutcome c
  if outcome ≠ .Unknown then (outcome, [])
  else
    let nimKids := (List.range c.nimber).map (fun k => Couple.mk c.position k)
    computeChildrenGo livesP estChildren posStr db c.nimber (posChildren c.position) nimKids

/-- A position child folded through the database (specification shorthand). -/
def foldedChild (db : NimDb L) (n : Nimber) (pc : Pos L) : Couple L :=
  (mergeComputedLands db { position := pc, nimber := n }).1

/-- Whether a position child folds to a terminal couple with outcome `Loss`
(the immediate-win condition of the parent). -/
def isLossFold (db : NimDb L) (n : Nimber) (pc : Pos L) : Bool :=
  posIsTerminal (foldedChild db n pc).position &&
    decide (getOutcome (foldedChild db n pc) = .Loss)

/-- The surviving folded position children: those whose folded position is
not terminal, in order. -/
def survivingFolds (db : NimDb L) (n : Nimber) (pcs : List (Pos L)) : List (Couple L) :=
  pcs.filterMap (fun pc =>
    if posIsTerminal (foldedChild db n pc).position then none
    else some (foldedChild db n pc))

/-- The nim children `(position, k)` for `k ∈ [0..nimber)`. -/
def nimChildren (c : Couple L) : List (Couple L) :=
  (List.range c.nimber).map (fun k => Couple.mk c.position k)

end CoupleModel

section PnsNodeModel

variable {L : Type} [DecidableEq L]

/-- The state of one child of a `PnsNode` as seen by the node's update
functions: its couple (`getCompactState`), its proof numbers
(`getProofNumbers`) and its lock flag (`isLocked`). -/
structure MChild (L : Type) where
  pos : Pos L
  nim : Nimber
  proof : Nat
  disproof : Nat
  locked : Bool
deriving DecidableEq, Repr

/-- A `PnsNode`: `State` (couple, cached `isMultiLand` is `pos.length > 1`
since the position never changes), `Info`, and the children vector. -/
structure MNode (L : Type) where
  pos : Pos L
  nim : Nimber
  proof : Nat
  disproof : Nat
  iterations : Nat
  locked : Bool
  expanded : Bool
  overestimated : Bool
  mergedNimber : Nimber
  children : List (MChild L)
deriving DecidableEq, Repr

/-- `PnsNode::isMultiLandNode`. -/
def isMultiLandNode (n : MNode L) : Bool := decide (n.pos.length > 1)

/-- `PnsNode::isProved`: `proofNumbers.isLoss() || proofNumbers.isWin()`. -/
def nodeIsProved (n : MNode L) : Bool := n.disproof = 0 || n.proof = 0

/-- `PnsNode::close`: drop the expanded flag, the children and the merged
nimber. -/
def close (n : MNode L) : MNode L :=
  { n with expanded := false, children := [], mergedNimber := 0 }

/-- `PnsNode::setToWin`: close, unlock, set proof numbers to `(0, INF)`. -/
def setToWin (n : MNode L) : MNode L :=
  { close n with locked := false, proof := 0, disproof := INF }

/-- `PnsNode::setToLoss`: close, unlock, set proof numbers to `(INF, 0)`. -/
def setToLoss (n : MNode L) : MNode L :=
  { close n with locked := false, proof := INF, disproof := 0 }

/-- `PnsNode::updateLock`: the node is locked iff every child is locked
(vacuously when there are no children). -/
def updateLock (n : MNode L) : MNode L :=
  { n with locked := n.children.all (fun c => c.locked) }

/-- `children.size() - 1` as the `size_t` operand of `operator+=`: for an
empty vector the unsigned wrap-around yields `2^64 - 1 = INF`. -/
def sizeTsub1 (n : Nat) : Nat := if n = 0 then INF else n - 1

/-- The loop of `PnsNode::updateSingleLandProofNumbers`, threading the
`(proof, disproof)` accumulator: `disproof += child.proof` (or `max` when
overestimated), and `proof` updated by `max` of child disproofs when the node
is locked, else by `min` over non-locked children. -/
def uslpnGo (nodeLocked overest : Bool) :
    List (MChild L) → Nat × Nat → Except PNErr (Nat × Nat)
  | [], acc => .ok acc
  | c :: rest, acc => do
    let d ← if !overest then PNV.add acc.2 c.proof else pure (PNV.vmax acc.2 c.proof)
    let p :=
      if nodeLocked then PNV.vmax acc.1 c.disproof
      else if !c.locked then PNV.vmin acc.1 c.disproof
      else acc.1
    uslpnGo nodeLocked overest rest (p, d)

/-- `PnsNode::updateSingleLandProofNumbers`: initial proof is `INF` (or `0`
when locked), initial disproof `0`; after the loop, an overestimated node
adds `children.size() - 1` onto the disproof. -/
def updateSingleLandProofNumbers (nodeLocked overest : Bool)
    (children : List (MChild L)) : Except PNErr (Nat × Nat) := do
  let acc ← uslpnGo nodeLocked overest children ((if !nodeLocked then INF else 0), 0)
  if overest then do
    let d ← PNV.add acc.2 (sizeTsub1 children.length)
    pure (acc.1, d)
  else pure acc

/-- The loop of `PnsNode::updateMultiLandProofNumbers`: sum (or max, when
overestimated) of the child complexities `min(childProof, childDisproof)`. -/
def umlpnGo (overest : Bool) : List (MChild L) → Nat → Except PNErr Nat
  | [], acc => .ok acc
  | c :: rest, acc => do
    let comp := PNV.vmin c.proof c.disproof
    let acc' ← if !overest then PNV.add acc comp else pure (PNV.vmax acc comp)
    umlpnGo overest rest acc'

/-- `PnsNode::updateMultiLandProofNumbers`: a single child's numbers are
copied; otherwise proof = the loop's accumulation (plus `size - 1` when
overestimated) and disproof = proof. -/
def updateMultiLandProofNumbers (overest : Bool) (children : List (MChild L)) :
    Except PNErr (Nat × Nat) :=
  match children with
  | [c] => .ok (c.proof, c.disproof)
  | _ => do
    let p ← umlpnGo overest children 0
    let p ← if overest then PNV.add p (sizeTsub1 children.length) else pure p
    pure (p, p)

/-- `PnsNode::updateInfo`: early return for proved or unexpanded nodes; else
recompute the lock flag and then the proof numbers per node kind. -/
def updateInfo (n : MNode L) : Except PNErr (MNode L) :=
  if nodeIsProved n || !n.expanded then .ok n
  else
    let n1 := updateLock n
    if isMultiLandNode n1 then
      match updateMultiLandProofNumbers n1.overestimated n1.children with
      | .ok r => .ok { n1 with proof := r.1, disproof := r.2 }
      | .error e => .error e
    else
      match updateSingleLandProofNumbers n1.locked n1.overestimated n1.children with
      | .ok r => .ok { n1 with proof := r.1, disproof := r.2 }
      | .error e => .error e

/-- The iterator loop of `PnsNode::updateSingleLandChildren`: a proved-loss
child makes the node a win; proved-win children are erased; an emptied
children vector makes the node a loss. -/
def uslcGo (n : MNode L) : List (MChild L) → List (MChild L) → MNode L
  | [], kept =>
    if kept.isEmpty then setToLoss n else { n with children := kept }
  | c :: rest, kept =>
    if c.disproof = 0 then setToWin n
    else if c.proof = 0 then uslcGo n rest kept
    else uslcGo n rest (kept ++ [c])

/-- `PnsNode::updateSingleLandChildren`. -/
def updateSingleLandChildren (n : MNode L) : MNode L :=
  uslcGo n n.children []

/-- The `ChildFactory` as seen by the update functions: builds a child from a
couple (the parent pointer plays no role in the state produced). -/
abbrev ChildFactory (L : Type) := Pos L → Nimber → MChild L

/-- The erase/replace loop of `PnsNode::updateLands`, run when the node has
more than one child. A subgame whose position is in the nimber database is
merged and erased; a proved loss merges its carried nimber and is erased; a
proved win is replaced in place by the same position at `nimber + 1` (and
re-examined, hence the fuel — the source loop re-runs on the replaced child
and terminates only when the factory eventually stops producing proved
wins). -/
def updateLandsGo (db : NimDb L) (factory : ChildFactory L) :
    Nat → Nimber → List (MChild L) → List (MChild L) →
    Option (Nimber × List (MChild L))
  | 0, _, _, _ => none
  | _ + 1, mn, done, [] => some (mn, done)
  | fuel + 1, mn, done, c :: rest =>
    match db c.pos with
    | some sn => updateLandsGo db factory fuel (mergeNimbers mn sn) done rest
    | none =>
      if c.disproof = 0 then
        updateLandsGo db factory fuel (mergeNimbers mn c.nim) done rest
      else if c.proof = 0 then
        updateLandsGo db factory fuel mn done (factory c.pos (nimberAdd1 c.nim) :: rest)
      else
        updateLandsGo db factory fuel mn (done ++ [c]) rest

/-- `PnsNode::updateLands`: run the merge loop when more than one child, then
handle the one-child case (rebuild it at `mergedNimber` if its carried nimber
differs, and collapse when it is proved) and the zero-children case (collapse
to win iff `mergedNimber` is a win). -/
def updateLands (db : NimDb L) (factory : ChildFactory L) (fuel : Nat)
    (n : MNode L) : Option (MNode L) :=
  let r :=
    if n.children.length > 1 then
      updateLandsGo db factory fuel n.mergedNimber [] n.children
    else some (n.mergedNimber, n.children)
  match r with
  | none => none
  | some (mn, cs) =>
    let n1 := { n with mergedNimber := mn, children := cs }
    match cs with
    | [c] =>
      let c' := if c.nim ≠ mn then factory c.pos mn else c
      let n2 := { n1 with children := [c'] }
      if c'.proof = 0 then some (setToWin n2)
      else if c'.disproof = 0 then some (setToLoss n2)
      else some n2
    | [] => some (if nimberIsWin mn then setToWin n1 else setToLoss n1)
    | _ => some n1

/-- `PnsNode::updateChildren`: early return for proved or unexpanded nodes;
else dispatch on the node kind. -/
def updateChildren (db : NimDb L) (factory : ChildFactory L) (fuel : Nat)
    (n : MNode L) : Option (MNode L) :=
  if nodeIsProved n || !n.expanded then some n
  else if isMultiLandNode n then updateLands db factory fuel n
  else some (updateSingleLandChildren n)

/-- `PnsNode::update`: `updateChildren` then `updateInfo`. -/
def update (db : NimDb L) (factory : ChildFactory L) (fuel : Nat)
    (n : MNode L) : Option (Except PNErr (MNode L)) :=
  match updateChildren db factory fuel n with
  | none => none
  | some n1 => some (updateInfo n1)

end PnsNodeModel

section ThresholdsModel

/-- `DfpnSolver::Thresholds`. -/
structure Thresholds where
  proofTh : Nat
  disproofTh : Nat
  pShift : Nat
  dShift : Nat
  minTh : Nat
deriving DecidableEq, Repr

/-- `Thresholds::areHolding`: `proof < proofTh && disproof < disproofTh &&
min(proof + pShift, disproof + dShift) < minTh`, with the C++ short-circuit
of `&&` (the additions are evaluated only when both strict bounds hold). -/
def areHolding (t : Thresholds) (proof disproof : Nat) : Except PNErr Bool :=
  if !PNV.lt proof t.proofTh then .ok false
  else if !PNV.lt disproof t.disproofTh then .ok false
  else do
    let a ← PNV.add proof t.pShift
    let b ← PNV.add disproof t.dShift
    pure (PNV.lt (PNV.vmin a b) t.minTh)

/-- `Thresholds::toPlainMpnThresholds`, at the default `epsilon = 1.0f` (the
`(1 + epsilon) * switchingTh` branch is taken only for `epsilon > 1`):
`mpnProofTh = disproofTh - parentDisproof + mpnProof`,
`mpnDisproofTh = min(proofTh, switchingTh)`,
`mpnPShift = dShift + parentDisproof - mpnProof`, `mpnDShift = pShift`,
`mpnMinTh = minTh`. -/
def toPlainMpnThresholds (t : Thresholds) (parentDisproof mpnProof switchingTh : Nat) :
    Except PNErr Thresholds := do
  let s1 ← PNV.sub t.disproofTh parentDisproof
  let mpnProofTh ← PNV.add s1 mpnProof
  let mpnDisproofTh := PNV.vmin t.proofTh switchingTh
  let s2 ← PNV.add t.dShift parentDisproof
  let mpnPShift ← PNV.sub s2 mpnProof
  pure ⟨mpnProofTh, mpnDisproofTh, mpnPShift, t.pShift, t.minTh⟩

end ThresholdsModel

section NimberDatabaseModel

/-- The header line written for normal impartial games. -/
def headerLine : List Char := "[Positions+Nimber]".toList

/-- The header line written for misère games. -/
def misereHeader : List Char := "[WinLoss_Misere:Losing_Position]".toList

/-- One entry line of `NimberDatabase::store` for an impartial game:
`<positionCompact> <nimberDecimal>`. -/
def encodeLine (kv : List Char × Nat) : List Char :=
  kv.1 ++ (' ' :: Spots.natToDigits kv.2)

/-- Lexicographic `≤` used to model `std::sort` of the output lines. -/
def lineLe (a b : List Char) : Bool := !Spots.strLtB b a

/-- `NimberDatabase::store` (with `sort = true`), as the list of lines
written to the file: the header, then the sorted entry lines, one per
`(positionCompact, nimber)` pair of the map. -/
def storeLines (data : List (List Char × Nat)) : List (List Char) :=
  headerLine :: (data.map encodeLine).mergeSort lineLe

/-- The digit test of `std::stoul`. -/
def isDigitChar (c : Char) : Bool := decide (48 ≤ c.toNat ∧ c.toNat ≤ 57)

/-- The successful-parse behaviour of `std::stoul` on a line suffix: read the
leading run of decimal digits; fail (throw, caught by `parseLine`) when there
is none. -/
def stoulModel (cs : List Char) : Option Nat :=
  let ds := cs.takeWhile isDigitChar
  if ds.isEmpty then none
  else some (ds.foldl (fun a c => a * 10 + (c.toNat - 48)) 0)

/-- `NimberDatabase::parseLine`: split at the first space
(`find_first_of(" ")`), the prefix is the position compact, the suffix is
parsed by `stoul` and cast to the `uint8` nimber type (`% 256`); a parse
failure is logged and the line skipped. -/
def parseLine (line : List Char) : Option (List Char × Nat) :=
  let sep := line.findIdx (fun c => c = ' ')
  let positionStr := line.take sep
  let nimberStr := line.drop (sep + 1)
  match stoulModel nimberStr with
  | some v => some (positionStr, v % 256)
  | none => none

/-- One `getline` iteration of `NimberDatabase::load`: skip the header and
empty lines, parse the line, and `data.insert({key, nimber})` — which keeps
the existing entry when the key is already present. -/
def loadLineStep (acc : List (List Char × Nat)) (line : List Char) :
    List (List Char × Nat) :=
  if line = headerLine ∨ line = misereHeader ∨ line = [] then acc
  else
    match parseLine line with
    | some kv => if (acc.lookup kv.1).isSome then acc else acc ++ [kv]
    | none => acc

/-- The loop body of `NimberDatabase::load` over the lines of the file. -/
def loadFromLines (lines : List (List Char)) (data : List (List Char × Nat)) :
    List (List Char × Nat) :=
  lines.foldl loadLineStep data

end NimberDatabaseModel

section SolverLoopModel

/-- `PnsSolver::NO_LIMIT`. -/
def NO_LIMIT : Nat := 0

/-- `PnsSolver::maxIterationsReached`:
`maxIterations != NO_LIMIT && iterations >= maxIterations`. -/
def maxIterationsReached (maxIterations iterations : Nat) : Bool :=
  maxIterations ≠ NO_LIMIT && decide (iterations ≥ maxIterations)

variable {S : Type}

/-- The `BasicPnsSolver::_expandCouple` loop: while the root is not proved
and the budget is not exhausted, run one full iteration (`getMpn`, expand the
MPN, `updatePaths`, `iterations++`) — modelled by the opaque `step` on the
solver state. The budget test happens only at the loop head, between
iterations. `fuel` bounds the modelled execution: `none` means the loop has
not returned within `fuel` iterations. -/
def expandLoop (step : S → S) (provedS : S → Bool) (maxIterations : Nat) :
    Nat → S → Nat → Option (S × Nat)
  | 0, _, _ => none
  | fuel + 1, s, iterations =>
    if !provedS s && !maxIterationsReached maxIterations iterations then
      expandLoop step provedS maxIterations fuel (step s) (iterations + 1)
    else some (s, iterations)

/-- `PnsSolver::expandCouple`: reset `iterations` to 0 and run the loop;
`rootPN` reads the root's proof numbers (`tree.isProved()` is the root's
`isProved`). -/
def expandCoupleRun (step : S → S) (rootPN : S → ProofNumbers)
    (maxIterations fuel : Nat) (s0 : S) : Option (S × Nat) :=
  expandLoop step (fun s => (rootPN s).isProved) maxIterations fuel s0 0

/-- `PnsSolver::solveCouple`: `expandCouple(couple, NO_LIMIT)` and convert
the root proof numbers to an outcome. -/
def solveCoupleRun (step : S → S) (rootPN : S → ProofNumbers) (fuel : Nat)
    (s0 : S) : Option Outcome :=
  (expandCoupleRun step rootPN NO_LIMIT fuel s0).map
    (fun r => (rootPN r.1).toOutcome)

end SolverLoopModel

/-!
Theorems. Helper lemmas first, then one theorem per claim (with its witness
or counterexample where required).
-/

theorem PNV.lt_iff {a b : Nat} (ha : a ≤ INF) (hb : b ≤ INF) :
    PNV.lt a b = true ↔ a < b := by
  unfold PNV.lt
  by_cases h1 : a = INF
  · subst h1
    simp
    omega
  · by_cases h2 : b = INF
    · subst h2
      simp [h1]
      omega
    · simp [h1, h2]

theorem PNV.vmin_eq {a b : Nat} (ha : a ≤ INF) (hb : b ≤ INF) :
    PNV.vmin a b = min a b := by
  unfold PNV.vmin
  by_cases hlt : b < a
  · rw [if_pos ((PNV.lt_iff hb ha).mpr hlt)]
    omega
  · have hf : PNV.lt b a = false := by
      cases hfb : PNV.lt b a
      · rfl
      · exact absurd ((PNV.lt_iff hb ha).mp hfb) hlt
    simp [hf]
    omega

theorem PNV.vmax_eq {a b : Nat} (ha : a ≤ INF) (hb : b ≤ INF) :
    PNV.vmax a b = max a b := by
  unfold PNV.vmax
  by_cases hlt : a < b
  · rw [if_pos ((PNV.lt_iff ha hb).mpr hlt)]
    omega
  · have hf : PNV.lt a b = false := by
      cases hfb : PNV.lt a b
      · rfl
      · exact absurd ((PNV.lt_iff ha hb).mp hfb) hlt
    simp [hf]
    omega

theorem PNV.add_ok_bound {a b r : Nat} (h : PNV.add a b = .ok r) : r ≤ INF := by
  simp only [PNV.add] at h
  split at h
  · cases h
    exact Nat.le_refl _
  · split at h
    · cases h
    · cases h
      omega

theorem PNV.sub_ok_bound {a b r : Nat} (ha : a ≤ INF)
    (h : PNV.sub a b = .ok r) : r ≤ INF := by
  simp only [PNV.sub] at h
  split at h
  · split at h
    · cases h
    · cases h
      exact Nat.le_refl _
  · split at h
    · cases h
    · cases h
      omega

/-- C10: a `BucketTable` constructed with `capacity < BUCKET_SIZE` has
`capacity / BUCKET_SIZE = 0` buckets, and every operation is a silent no-op:
`insert` returns none and leaves the table unchanged, `find` returns none for
every key, `mark`/`unmark` (any per-value function `f`) leave the table
unchanged, and `size()` is 0 — no error is ever reported. -/
theorem bucketTable_small_capacity_noop {Key Value : Type} [DecidableEq Key]
    (vLt : Value → Value → Bool) (vUpdate : Value → Value → Value)
    (f : Value → Value) (hash : Key → Nat) (kDef : Key) (vDef : Value)
    (capacity : Nat) (hcap : capacity < BUCKET_SIZE) (key : Key) (value : Value) :
    (mkBucketTable kDef vDef capacity).data = [] ∧
    tableInsert vLt vUpdate hash (mkBucketTable kDef vDef capacity) key value =
      (none, mkBucketTable kDef vDef capacity) ∧
    tableFind hash (mkBucketTable kDef vDef capacity) key = none ∧
    tableMapAt f hash (mkBucketTable kDef vDef capacity) key =
      mkBucketTable kDef vDef capacity ∧
    (mkBucketTable kDef vDef capacity).tsize = 0 := by
  have hz : capacity / BUCKET_SIZE = 0 := Nat.div_eq_of_lt hcap
  have hdata : (mkBucketTable kDef vDef capacity : BucketTable Key Value).data = [] := by
    simp [mkBucketTable, hz]
  refine ⟨hdata, ?_, ?_, ?_, rfl⟩
  · simp [tableInsert, hdata]
  · simp [tableFind, hdata]
  · simp [tableMapAt, hdata]

/-- Witness for C10 at `capacity = 3`, `Key = Value = Nat`. -/
theorem bucketTable_small_capacity_noop_witness :
    3 < BUCKET_SIZE ∧
    (mkBucketTable (0 : Nat) (0 : Nat) 3).data = [] ∧
    tableInsert (fun a b => decide (a < b)) (fun _ b => b) (fun k => k)
      (mkBucketTable (0 : Nat) (0 : Nat) 3) 5 7 =
      (none, mkBucketTable (0 : Nat) (0 : Nat) 3) ∧
    tableFind (fun k => k) (mkBucketTable (0 : Nat) (0 : Nat) 3) 5 = none ∧
    tableMapAt (fun v => v + 1) (fun k => k)
      (mkBucketTable (0 : Nat) (0 : Nat) 3) 5 =
      mkBucketTable (0 : Nat) (0 : Nat) 3 ∧
    (mkBucketTable (0 : Nat) (0 : Nat) 3).tsize = 0 := by
  refine ⟨by decide, ?_⟩
  exact bucketTable_small_capacity_noop (fun a b => decide (a < b)) (fun _ b => b)
    (fun v => v + 1) (fun k => k) 0 0 3 (by decide) 5 7

/-- C7: `setToWin` leaves a node with proof numbers `(0, INF)`, no children,
unlocked (resp. `(INF, 0)` for `setToLoss`), and the collapse is absorbing:
every subsequent `update`, `updateChildren` or `updateInfo` call returns the
node unchanged. -/
theorem node_collapse_absorbing {L : Type} [DecidableEq L] (n : MNode L)
    (db : NimDb L) (factory : ChildFactory L) (fuel : Nat) :
    (setToWin n).proof = 0 ∧ (setToWin n).disproof = INF ∧
    (setToWin n).children = [] ∧ (setToWin n).locked = false ∧
    updateInfo (setToWin n) = .ok (setToWin n) ∧
    updateChildren db factory fuel (setToWin n) = some (setToWin n) ∧
    update db factory fuel (setToWin n) = some (.ok (setToWin n)) ∧
    (setToLoss n).proof = INF ∧ (setToLoss n).disproof = 0 ∧
    (setToLoss n).children = [] ∧ (setToLoss n).locked = false ∧
    updateInfo (setToLoss n) = .ok (setToLoss n) ∧
    updateChildren db factory fuel (setToLoss n) = some (setToLoss n) ∧
    update db factory fuel (setToLoss n) = some (.ok (setToLoss n)) := by
  have hw : nodeIsProved (setToWin n) = true := by
    simp [nodeIsProved, setToWin, close]
  have hl : nodeIsProved (setToLoss n) = true := by
    simp [nodeIsProved, setToLoss, close]
  refine ⟨rfl, rfl, rfl, rfl, ?_, ?_, ?_, rfl, rfl, rfl, rfl, ?_, ?_, ?_⟩ <;>
    simp [updateInfo, updateChildren, update, hw, hl]

theorem expandLoop_spec {S : Type} (step : S → S) (provedS : S → Bool)
    (m : Nat) :
    ∀ (fuel : Nat) (s : S) (iters : Nat) (s' : S) (k : Nat),
      expandLoop step provedS m fuel s iters = some (s', k) →
      iters ≤ k ∧ s' = step^[k - iters] s ∧
      (provedS s' = false → maxIterationsReached m k = true) ∧
      (m ≠ 0 → k ≤ max iters m) := by
  intro fuel
  induction fuel with
  | zero => intro s iters s' k h; cases h
  | succ fuel ih =>
    intro s iters s' k h
    rw [expandLoop] at h
    by_cases hc : (!provedS s && !maxIterationsReached m iters) = true
    · rw [if_pos hc] at h
      obtain ⟨h1, h2, h3, h4⟩ := ih (step s) (iters + 1) s' k h
      refine ⟨by omega, ?_, h3, ?_⟩
      · rw [h2]
        have hk : k - iters = (k - (iters + 1)) + 1 := by omega
        rw [hk, Function.iterate_succ_apply]
      · intro hm
        have h5 := h4 hm
        have h6 : maxIterationsReached m iters = false := by
          cases hmi : maxIterationsReached m iters
          · rfl
          · simp [hmi] at hc
        have h7 : iters < m := by
          simp [maxIterationsReached, NO_LIMIT, hm] at h6
          omega
        omega
    · rw [if_neg hc] at h
      cases h
      refine ⟨Nat.le_refl _, by simp, ?_, by omega⟩
      intro hp
      simp [hp] at hc
      exact hc

/-- C9: the `BasicPnsSolver` loop returns `Outcome::Unknown` only when a
finite budget (`maxIterations ≠ 0`) was exhausted — in which case exactly
`maxIterations` iterations ran; with `maxIterations = 0` (unlimited) a
terminating run is proved, so its outcome is `Win` or `Loss`; and the final
state is literally the `k`-th iterate of the per-iteration step with
`k ≤ maxIterations`, i.e. the budget is tested only on iteration boundaries
and never interrupts a step. -/
theorem solver_budget_unknown_only_on_exhaustion {S : Type} (step : S → S)
    (rootPN : S → ProofNumbers) (m fuel : Nat) (s0 s' : S) (k : Nat)
    (h : expandCoupleRun step rootPN m fuel s0 = some (s', k)) :
    s' = step^[k] s0 ∧ (m ≠ 0 → k ≤ m) ∧
    ((rootPN s').toOutcome = .Unknown → m ≠ 0 ∧ k = m) ∧
    (m = 0 → (rootPN s').toOutcome ≠ .Unknown) := by
  obtain ⟨h1, h2, h3, h4⟩ := expandLoop_spec step
    (fun s => (rootPN s).isProved) m fuel s0 0 s' k h
  have hiter : s' = step^[k] s0 := by simpa using h2
  have hunk : (rootPN s').toOutcome = .Unknown → (rootPN s').isProved = false := by
    intro hu
    unfold ProofNumbers.toOutcome at hu
    unfold ProofNumbers.isProved ProofNumbers.isWin ProofNumbers.isLoss
    split at hu
    · cases hu
    · split at hu
      · cases hu
      · simp_all
  refine ⟨hiter, fun hm => by simpa using h4 hm, ?_, ?_⟩
  · intro hu
    have hr := h3 (hunk hu)
    simp [maxIterationsReached, NO_LIMIT] at hr
    have hk := h4 hr.1
    simp at hk
    exact ⟨hr.1, by omega⟩
  · intro hm hu
    have hr := h3 (hunk hu)
    simp [maxIterationsReached, NO_LIMIT, hm] at hr

/-- Witness for C9: a two-step run on `S = Nat` with unlimited budget. -/
theorem solver_budget_witness :
    expandCoupleRun (fun s => s + 1)
      (fun s => if s ≥ 2 then ⟨0, 1⟩ else ⟨1, 1⟩) 0 5 0 = some (2, 2) ∧
    (2 : Nat) = (fun s => s + 1)^[2] 0 ∧
    ((0 : Nat) ≠ 0 → 2 ≤ 0) ∧
    ((ProofNumbers.toOutcome (if (2 : Nat) ≥ 2 then ⟨0, 1⟩ else ⟨1, 1⟩)) = .Unknown →
      (0 : Nat) ≠ 0 ∧ (2 : Nat) = 0) ∧
    ((0 : Nat) = 0 →
      (ProofNumbers.toOutcome (if (2 : Nat) ≥ 2 then ⟨0, 1⟩ else ⟨1, 1⟩)) ≠ .Unknown) := by
  have h : expandCoupleRun (fun s => s + 1)
      (fun s => if s ≥ 2 then ⟨0, 1⟩ else ⟨1, 1⟩) 0 5 0 = some (2, 2) := by
    decide
  have hm := solver_budget_unknown_only_on_exhaustion (fun s => s + 1)
    (fun s => if s ≥ 2 then ⟨0, 1⟩ else ⟨1, 1⟩) 0 5 0 2 2 h
  exact ⟨h, hm.1, hm.2.1, hm.2.2.1, hm.2.2.2⟩

/-- Counterexample to C2: in a full bucket with no matching key and no empty
slot, holding a proved entry (slot 1, 5 iterations) and an unproved entry
with fewer iterations (slot 0, 1 iteration), `insert` evicts the proved
entry and keeps the unproved one — `StoredNodeInfo::operator<` ranks a
proved value as least, so a proved entry is not kept in preference to an
unproved entry with fewer iterations. -/
theorem bucketInsert_evicts_proved_counterexample :
    bucketInsert StoredNodeInfo.lt StoredNodeInfo.update
      [⟨10, ⟨⟨1, 1⟩, 1⟩, true⟩, ⟨11, ⟨⟨0, INF⟩, 5⟩, true⟩,
       ⟨12, ⟨⟨1, 1⟩, 5⟩, true⟩, ⟨13, ⟨⟨1, 1⟩, 5⟩, true⟩]
      (99 : Nat) ⟨⟨1, 2⟩, 0⟩ =
      (none,
       [⟨10, ⟨⟨1, 1⟩, 1⟩, true⟩, ⟨99, ⟨⟨1, 2⟩, 0⟩, true⟩,
        ⟨12, ⟨⟨1, 1⟩, 5⟩, true⟩, ⟨13, ⟨⟨1, 1⟩, 5⟩, true⟩],
       false) ∧
    (StoredNodeInfo.mk ⟨0, INF⟩ 5).proofNumbers.isProved = true ∧
    (StoredNodeInfo.mk ⟨1, 1⟩ 1).proofNumbers.isProved = false ∧
    (1 : Nat) < 5 := by
  refine ⟨?_, by decide, by decide, by decide⟩
  decide

/-- C2 (amended): in a full bucket, `insert` with a key matching slot `j`
(and no earlier match) updates that slot through `StoredNodeInfo::update`
and returns the prior value; with no matching key it returns none and evicts
the slot selected by the left-to-right scan under `StoredNodeInfo::operator<`
— an ordering that ranks a proved value as less than anything (so proved
entries are evicted in preference, never kept on account of being proved),
and among unproved values ranks fewer iterations as less, so when every slot
is unproved the first slot with the fewest iterations is evicted. -/
theorem bucketInsert_replacement_policy {Key : Type} [DecidableEq Key]
    (key : Key) (value : StoredNodeInfo) (e0 e1 e2 e3 : TTEntry Key StoredNodeInfo)
    (h0 : e0.occupied = true) (h1 : e1.occupied = true)
    (h2 : e2.occupied = true) (h3 : e3.occupied = true) :
    (∀ a b : StoredNodeInfo, a.proofNumbers.isProved = true →
      StoredNodeInfo.lt a b = true) ∧
    (e0.key = key →
      bucketInsert StoredNodeInfo.lt StoredNodeInfo.update [e0, e1, e2, e3] key value =
        (some e0.value,
         [⟨e0.key, e0.value.update value, e0.occupied⟩, e1, e2, e3], false)) ∧
    (e0.key ≠ key → e1.key = key →
      bucketInsert StoredNodeInfo.lt StoredNodeInfo.update [e0, e1, e2, e3] key value =
        (some e1.value,
         [e0, ⟨e1.key, e1.value.update value, e1.occupied⟩, e2, e3], false)) ∧
    (e0.key ≠ key → e1.key ≠ key → e2.key = key →
      bucketInsert StoredNodeInfo.lt StoredNodeInfo.update [e0, e1, e2, e3] key value =
        (some e2.value,
         [e0, e1, ⟨e2.key, e2.value.update value, e2.occupied⟩, e3], false)) ∧
    (e0.key ≠ key → e1.key ≠ key → e2.key ≠ key → e3.key = key →
      bucketInsert StoredNodeInfo.lt StoredNodeInfo.update [e0, e1, e2, e3] key value =
        (some e3.value,
         [e0, e1, e2, ⟨e3.key, e3.value.update value, e3.occupied⟩], false)) ∧
    (e0.key ≠ key → e1.key ≠ key → e2.key ≠ key → e3.key ≠ key →
      ∃ r, r < 4 ∧
        bucketInsert StoredNodeInfo.lt StoredNodeInfo.update [e0, e1, e2, e3] key value =
          (none, [e0, e1, e2, e3].set r ⟨key, value, true⟩, false) ∧
        (e0.value.proofNumbers.isProved = false →
         e1.value.proofNumbers.isProved = false →
         e2.value.proofNumbers.isProved = false →
         e3.value.proofNumbers.isProved = false →
          (r = 0 → e0.value.iterations ≤ e1.value.iterations ∧
            e0.value.iterations ≤ e2.value.iterations ∧
            e0.value.iterations ≤ e3.value.iterations) ∧
          (r = 1 → e1.value.iterations < e0.value.iterations ∧
            e1.value.iterations ≤ e2.value.iterations ∧
            e1.value.iterations ≤ e3.value.iterations) ∧
          (r = 2 → e2.value.iterations < e0.value.iterations ∧
            e2.value.iterations < e1.value.iterations ∧
            e2.value.iterations ≤ e3.value.iterations) ∧
          (r = 3 → e3.value.iterations < e0.value.iterations ∧
            e3.value.iterations < e1.value.iterations ∧
            e3.value.iterations < e2.value.iterations))) := by
  refine ⟨?_, ?_, ?_, ?_, ?_, ?_⟩
  · intro a b ha
    simp [StoredNodeInfo.lt, ha]
  · intro hm
    simp [bucketInsert, insertScan, insertScanGo, h0, hm]
  · intro hn0 hm
    simp [bucketInsert, insertScan, insertScanGo, h0, h1, hn0, hm]
  · intro hn0 hn1 hm
    simp [bucketInsert, insertScan, insertScanGo, h0, h1, h2, hn0, hn1, hm]
  · intro hn0 hn1 hn2 hm
    simp [bucketInsert, insertScan, insertScanGo, h0, h1, h2, h3, hn0, hn1, hn2, hm]
  · intro hn0 hn1 hn2 hn3
    by_cases c1 : StoredNodeInfo.lt e1.value e0.value = true
    · by_cases c2 : StoredNodeInfo.lt e2.value e1.value = true
      · by_cases c3 : StoredNodeInfo.lt e3.value e2.value = true
        · have hr : insertScan StoredNodeInfo.lt [e0, e1, e2, e3] key = 3 := by
            simp [insertScan, insertScanGo, h0, h1, h2, h3, hn0, hn1, hn2, hn3,
              c1, c2, c3]
          refine ⟨3, by omega, ?_, ?_⟩
          · simp [bucketInsert, hr, h3, hn3]
          · intro hu0 hu1 hu2 hu3
            simp [StoredNodeInfo.lt, hu1, hu2, hu3] at c1 c2 c3
            omega
        · rw [Bool.not_eq_true] at c3
          have hr : insertScan StoredNodeInfo.lt [e0, e1, e2, e3] key = 2 := by
            simp [insertScan, insertScanGo, h0, h1, h2, h3, hn0, hn1, hn2, hn3,
              c1, c2, c3]
          refine ⟨2, by omega, ?_, ?_⟩
          · simp [bucketInsert, hr, h2, hn2]
          · intro hu0 hu1 hu2 hu3
            simp [StoredNodeInfo.lt, hu1, hu2, hu3] at c1 c2 c3
            omega
      · rw [Bool.not_eq_true] at c2
        by_cases c3 : StoredNodeInfo.lt e3.value e1.value = true
        · have hr : insertScan StoredNodeInfo.lt [e0, e1, e2, e3] key = 3 := by
            simp [insertScan, insertScanGo, h0, h1, h2, h3, hn0, hn1, hn2, hn3,
              c1, c2, c3]
          refine ⟨3, by omega, ?_, ?_⟩
          · simp [bucketInsert, hr, h3, hn3]
          · intro hu0 hu1 hu2 hu3
            simp [StoredNodeInfo.lt, hu1, hu2, hu3] at c1 c2 c3
            omega
        · rw [Bool.not_eq_true] at c3
          have hr : insertScan StoredNodeInfo.lt [e0, e1, e2, e3] key = 1 := by
            simp [insertScan, insertScanGo, h0, h1, h2, h3, hn0, hn1, hn2, hn3,
              c1, c2, c3]
          refine ⟨1, by omega, ?_, ?_⟩
          · simp [bucketInsert, hr, h1, hn1]
          · intro hu0 hu1 hu2 hu3
            simp [StoredNodeInfo.lt, hu1, hu2, hu3] at c1 c2 c3
            omega
    · rw [Bool.not_eq_true] at c1
      by_cases c2 : StoredNodeInfo.lt e2.value e0.value = true
      · by_cases c3 : StoredNodeInfo.lt e3.value e2.value = true
        · have hr : insertScan StoredNodeInfo.lt [e0, e1, e2, e3] key = 3 := by
            simp [insertScan, insertScanGo, h0, h1, h2, h3, hn0, hn1, hn2, hn3,
              c1, c2, c3]
          refine ⟨3, by omega, ?_, ?_⟩
          · simp [bucketInsert, hr, h3, hn3]
          · intro hu0 hu1 hu2 hu3
            simp [StoredNodeInfo.lt, hu1, hu2, hu3] at c1 c2 c3
            omega
        · rw [Bool.not_eq_true] at c3
          have hr : insertScan StoredNodeInfo.lt [e0, e1, e2, e3] key = 2 := by
            simp [insertScan, insertScanGo, h0, h1, h2, h3, hn0, hn1, hn2, hn3,
              c1, c2, c3]
          refine ⟨2, by omega, ?_, ?_⟩
          · simp [bucketInsert, hr, h2, hn2]
          · intro hu0 hu1 hu2 hu3
            simp [StoredNodeInfo.lt, hu1, hu2, hu3] at c1 c2 c3
            omega
      · rw [Bool.not_eq_true] at c2
        by_cases c3 : StoredNodeInfo.lt e3.value e0.value = true
        · have hr : insertScan StoredNodeInfo.lt [e0, e1, e2, e3] key = 3 := by
            simp [insertScan, insertScanGo, h0, h1, h2, h3, hn0, hn1, hn2, hn3,
              c1, c2, c3]
          refine ⟨3, by omega, ?_, ?_⟩
          · simp [bucketInsert, hr, h3, hn3]
          · intro hu0 hu1 hu2 hu3
            simp [StoredNodeInfo.lt, hu1, hu2, hu3] at c1 c2 c3
            omega
        · rw [Bool.not_eq_true] at c3
          have hr : insertScan StoredNodeInfo.lt [e0, e1, e2, e3] key = 0 := by
            simp [insertScan, insertScanGo, h0, h1, h2, h3, hn0, hn1, hn2, hn3,
              c1, c2, c3]
          refine ⟨0, by omega, ?_, ?_⟩
          · simp [bucketInsert, hr, h0, hn0]
          · intro hu0 hu1 hu2 hu3
            simp [StoredNodeInfo.lt, hu1, hu2, hu3] at c1 c2 c3
            omega

/-- Witness for the C2 replacement-policy theorem: a concrete full bucket of
unproved entries with no matching key; the evicted slot is the first with
the fewest iterations. -/
theorem bucketInsert_replacement_policy_witness :
    ∃ r, r < 4 ∧
      bucketInsert StoredNodeInfo.lt StoredNodeInfo.update
        [⟨0, ⟨⟨1, 1⟩, 4⟩, true⟩, ⟨1, ⟨⟨1, 1⟩, 2⟩, true⟩,
         ⟨2, ⟨⟨1, 1⟩, 2⟩, true⟩, ⟨3, ⟨⟨1, 1⟩, 9⟩, true⟩] (7 : Nat) ⟨⟨1, 1⟩, 0⟩ =
        (none,
         [⟨0, ⟨⟨1, 1⟩, 4⟩, true⟩, ⟨1, ⟨⟨1, 1⟩, 2⟩, true⟩,
          ⟨2, ⟨⟨1, 1⟩, 2⟩, true⟩,
          ⟨3, ⟨⟨1, 1⟩, 9⟩, true⟩].set r ⟨7, ⟨⟨1, 1⟩, 0⟩, true⟩,
         false) ∧
      ((4 : Nat) ≠ 0 → (2 : Nat) ≠ 0 → (2 : Nat) ≠ 0 → (9 : Nat) ≠ 0 →
        (r = 0 → (4 : Nat) ≤ 2 ∧ (4 : Nat) ≤ 2 ∧ (4 : Nat) ≤ 9) ∧
        (r = 1 → (2 : Nat) < 4 ∧ (2 : Nat) ≤ 2 ∧ (2 : Nat) ≤ 9) ∧
        (r = 2 → (2 : Nat) < 4 ∧ (2 : Nat) < 2 ∧ (2 : Nat) ≤ 9) ∧
        (r = 3 → (9 : Nat) < 4 ∧ (9 : Nat) < 2 ∧ (9 : Nat) < 2)) := by
  have h := (bucketInsert_replacement_policy (7 : Nat) ⟨⟨1, 1⟩, 0⟩
    ⟨0, ⟨⟨1, 1⟩, 4⟩, true⟩ ⟨1, ⟨⟨1, 1⟩, 2⟩, true⟩
    ⟨2, ⟨⟨1, 1⟩, 2⟩, true⟩ ⟨3, ⟨⟨1, 1⟩, 9⟩, true⟩
    rfl rfl rfl rfl).2.2.2.2.2 (by decide) (by decide) (by decide) (by decide)
  obtain ⟨r, hr1, hr2, hr3⟩ := h
  refine ⟨r, hr1, hr2, ?_⟩
  intro u0 u1 u2 u3
  exact hr3 (by decide) (by decide) (by decide) (by decide)

theorem mergeLandsFold_spec {L : Type} [DecidableEq L] (db : NimDb L) :
    ∀ (subs : List (Pos L)) (n : Nimber) (unc : List (Pos L)) (mod : Bool),
      mergeLandsFold db subs n unc mod =
        (subs.foldl
          (fun a g => match db g with | some sn => mergeNimbers a sn | none => a) n,
         unc ++ subs.filter (fun g => (db g).isNone),
         mod || subs.any (fun g => (db g).isSome)) := by
  intro subs
  induction subs with
  | nil => intro n unc mod; simp [mergeLandsFold]
  | cons g rest ih =>
    intro n unc mod
    cases hg : db g with
    | some sn =>
      simp only [mergeLandsFold, hg]
      rw [ih]
      simp [List.filter_cons, List.any_cons, hg]
    | none =>
      simp only [mergeLandsFold, hg]
      rw [ih]
      simp [List.filter_cons, List.any_cons, hg]

theorem flatten_map_singleton {L : Type} (l : List L) :
    (l.map (fun x => [x])).flatten = l := by
  induction l with
  | nil => rfl
  | cons x rest ih => simp [ih]

theorem filter_map_singleton {L : Type} (q : List L → Bool) (l : List L) :
    (l.map (fun x => [x])).filter q = (l.filter (fun x => q [x])).map (fun x => [x]) := by
  induction l with
  | nil => rfl
  | cons x rest ih =>
    by_cases hx : q [x] = true <;> simp [List.filter_cons, hx, ih]

theorem any_map_singleton {L : Type} (q : List L → Bool) (l : List L) :
    (l.map (fun x => [x])).any q = l.any (fun x => q [x]) := by
  induction l with
  | nil => rfl
  | cons x rest ih => simp [ih]

/-- Counterexample to C4: for the single-land (hence not multi-land) position
`[0]` whose land is stored in the database with nimber 3, `mergeComputedLands`
is not a no-op: it XORs the stored nimber in, drops the land, and returns
true. -/
theorem mergeComputedLands_counterexample :
    posIsMultiLand ([0] : Pos Nat) = false ∧
    mergeComputedLands (fun p => if p = [0] then some 3 else none)
      (Couple.mk [0] 0) = (Couple.mk [] 3, true) ∧
    ¬ mergeComputedLands (fun p => if p = [0] then some 3 else none)
        (Couple.mk [0] 0) = (Couple.mk [0] 0, false) := by
  refine ⟨by decide, by decide, by decide⟩

/-- C4 (amended): `mergeComputedLands(db)` is a no-op — it returns false and
leaves the couple's position and nimber unchanged — unless the game is normal
impartial (Sprouts is) AND the position is non-empty; in particular it also
acts on single-land positions, not only multi-land ones. When the position is
non-empty, the result keeps exactly the lands whose single-land position is
not in the database, XORs every stored nimber into the couple's nimber, and
returns true exactly when at least one subgame was found (merged and
dropped); when none is found it again returns the unchanged couple and
false. -/
theorem mergeComputedLands_characterization {L : Type} [DecidableEq L]
    (db : NimDb L) (c : Couple L) :
    (posEmpty c.position = true → mergeComputedLands db c = (c, false)) ∧
    (posEmpty c.position = false →
      mergeComputedLands db c =
        ({ position := c.position.filter (fun l => (db [l]).isNone),
           nimber := c.position.foldl
             (fun a l => match db [l] with | some sn => mergeNimbers a sn | none => a)
             c.nimber },
         c.position.any (fun l => (db [l]).isSome)) ∧
      (c.position.any (fun l => (db [l]).isSome) = false →
        mergeComputedLands db c = (c, false))) := by
  constructor
  · intro h
    simp [mergeComputedLands, h]
  · intro h
    have hmain : mergeComputedLands db c =
        ({ position := c.position.filter (fun l => (db [l]).isNone),
           nimber := c.position.foldl
             (fun a l => match db [l] with | some sn => mergeNimbers a sn | none => a)
             c.nimber },
         c.position.any (fun l => (db [l]).isSome)) := by
      rw [mergeComputedLands, if_neg (by simp [h])]
      rw [getSubgames, mergeLandsFold_spec]
      simp only [posOfPositions, List.foldl_map, any_map_singleton, Bool.false_or,
        List.nil_append, filter_map_singleton, flatten_map_singleton]
    refine ⟨hmain, ?_⟩
    intro hnone
    rw [hmain]
    have hall : ∀ l ∈ c.position, db [l] = none := by
      intro a ha
      have h2 := List.any_eq_false.mp hnone a ha
      cases hda : db [a] with
      | none => rfl
      | some sn => rw [hda] at h2; simp at h2
    have hfil : c.position.filter (fun l => (db [l]).isNone) = c.position := by
      rw [List.filter_eq_self]
      intro a ha
      rw [hall a ha]
      rfl
    have hfoldgen : ∀ (xs : List L) (a : Nimber), (∀ l ∈ xs, db [l] = none) →
        xs.foldl
          (fun a l => match db [l] with | some sn => mergeNimbers a sn | none => a)
          a = a := by
      intro xs
      induction xs with
      | nil => intro a _; rfl
      | cons x rest ih =>
        intro a hxs
        rw [List.foldl_cons]
        have hx := hxs x (by simp)
        simp only [hx]
        exact ih a (fun l hl => hxs l (by simp [hl]))
    rw [hfil, hfoldgen c.position c.nimber hall, hnone]

/-- Witness for the C4 characterization: a two-land position with the second
land stored in the database at nimber 3. -/
theorem mergeComputedLands_characterization_witness :
    posEmpty ([4, 5] : Pos Nat) = false ∧
    mergeComputedLands (fun p => if p = [5] then some 3 else none)
      (Couple.mk [4, 5] 1) = (Couple.mk [4] 2, true) := by
  refine ⟨by decide, ?_⟩
  have h := ((mergeComputedLands_characterization
    (fun p => if p = [5] then some 3 else none) (Couple.mk [4, 5] 1)).2
    (by decide)).1
  rw [h]
  decide

theorem computeChildrenGo_win {L : Type} [DecidableEq L]
    (livesP : Pos L → Nat) (estChildren : Pos L → Nat) (posStr : Pos L → List Char)
    (db : NimDb L) (n : Nimber) :
    ∀ (pcs : List (Pos L)) (acc : List (Couple L)),
      pcs.any (isLossFold db n) = true →
      (computeChildrenGo livesP estChildren posStr db n pcs acc).1 = .Win := by
  intro pcs
  induction pcs with
  | nil => intro acc h; cases h
  | cons pc rest ih =>
    intro acc h
    rw [computeChildrenGo]
    by_cases ht : posIsTerminal (foldedChild db n pc).position = true
    · by_cases hl : getOutcome (foldedChild db n pc) = .Loss
      · simp [foldedChild] at ht hl
        simp [ht, hl]
      · simp [foldedChild] at ht hl
        simp [ht, hl]
        apply ih
        rcases List.any_eq_true.mp h with ⟨x, hx, hpx⟩
        rcases List.mem_cons.mp hx with hx1 | hx2
        · subst hx1
          exfalso
          simp [isLossFold, foldedChild, ht, hl] at hpx
        · exact List.any_eq_true.mpr ⟨x, hx2, hpx⟩
    · simp [foldedChild] at ht
      simp [ht]
      apply ih
      rcases List.any_eq_true.mp h with ⟨x, hx, hpx⟩
      rcases List.mem_cons.mp hx with hx1 | hx2
      · subst hx1
        exfalso
        simp [isLossFold, foldedChild, ht] at hpx
      · exact List.any_eq_true.mpr ⟨x, hx2, hpx⟩

theorem computeChildrenGo_noloss {L : Type} [DecidableEq L]
    (livesP : Pos L → Nat) (estChildren : Pos L → Nat) (posStr : Pos L → List Char)
    (db : NimDb L) (n : Nimber) :
    ∀ (pcs : List (Pos L)) (acc : List (Couple L)),
      pcs.any (isLossFold db n) = false →
      computeChildrenGo livesP estChildren posStr db n pcs acc =
        (if (acc ++ survivingFolds db n pcs).isEmpty then
          (.Loss, acc ++ survivingFolds db n pcs)
         else
          (.Unknown,
           (acc ++ survivingFolds db n pcs).mergeSort
             (coupleLe livesP estChildren posStr))) := by
  intro pcs
  induction pcs with
  | nil =>
    intro acc h
    simp [computeChildrenGo, survivingFolds]
  | cons pc rest ih =>
    intro acc h
    rw [List.any_cons] at h
    have hh : isLossFold db n pc = false := by
      cases hx : isLossFold db n pc
      · rfl
      · rw [hx] at h; simp at h
    have hr : rest.any (isLossFold db n) = false := by
      cases hx : rest.any (isLossFold db n)
      · rfl
      · rw [hx] at h; simp at h
    rw [computeChildrenGo]
    by_cases ht : posIsTerminal (foldedChild db n pc).position = true
    · have hl : ¬ getOutcome (foldedChild db n pc) = .Loss := by
        intro hc
        simp [isLossFold, ht, hc] at hh
      simp only [foldedChild] at ht hl
      simp only [ht, if_true, if_neg hl]
      rw [ih acc hr]
      have hs : survivingFolds db n (pc :: rest) = survivingFolds db n rest := by
        simp [survivingFolds, List.filterMap_cons, ht, foldedChild]
      rw [hs]
    · simp only [foldedChild] at ht
      rw [Bool.not_eq_true] at ht
      simp only [ht, Bool.false_eq_true, if_false]
      rw [ih (acc ++ [(mergeComputedLands db { position := pc, nimber := n }).1]) hr]
      have hs : survivingFolds db n (pc :: rest) =
          (mergeComputedLands db { position := pc, nimber := n }).1 ::
            survivingFolds db n rest := by
        simp [survivingFolds, List.filterMap_cons, ht, foldedChild]
      rw [hs, List.append_assoc]
      rfl

/-- C5: for a non-terminal couple, `computeChildren(db, out)` returns `Win`
when some position child folded through the database becomes terminal with
outcome `Loss`; returns `Loss` when (absent such a fold) there are no nim
children and no surviving folded child; and otherwise returns `Unknown` with
`out` holding exactly (a permutation of) the nim children `(position, k)`,
`k ∈ [0..nimber)`, together with the surviving folded position children,
sorted by `DefaultCoupleComparer` (modelled as `mergeSort` by its non-strict
complement). -/
theorem computeChildren_cases {L : Type} [DecidableEq L]
    (livesP : Pos L → Nat) (estChildren : Pos L → Nat) (posStr : Pos L → List Char)
    (posChildren : Pos L → List (Pos L)) (db : NimDb L) (c : Couple L)
    (hnt : posIsTerminal c.position = false) :
    ((posChildren c.position).any (isLossFold db c.nimber) = true →
      (computeChildren livesP estChildren posStr posChildren db c).1 = .Win) ∧
    ((posChildren c.position).any (isLossFold db c.nimber) = false →
      nimChildren c ++ survivingFolds db c.nimber (posChildren c.position) = [] →
      computeChildren livesP estChildren posStr posChildren db c = (.Loss, [])) ∧
    ((posChildren c.position).any (isLossFold db c.nimber) = false →
      nimChildren c ++ survivingFolds db c.nimber (posChildren c.position) ≠ [] →
      (computeChildren livesP estChildren posStr posChildren db c).1 = .Unknown ∧
      (computeChildren livesP estChildren posStr posChildren db c).2 =
        (nimChildren c ++ survivingFolds db c.nimber (posChildren c.position)).mergeSort
          (coupleLe livesP estChildren posStr) ∧
      (computeChildren livesP estChildren posStr posChildren db c).2.Perm
        (nimChildren c ++ survivingFolds db c.nimber (posChildren c.position))) := by
  have hout : getOutcome c = .Unknown := by
    simp [getOutcome, hnt]
  have hcc : computeChildren livesP estChildren posStr posChildren db c =
      computeChildrenGo livesP estChildren posStr db c.nimber
        (posChildren c.position) (nimChildren c) := by
    rw [computeChildren]
    simp [hout, nimChildren]
  refine ⟨?_, ?_, ?_⟩
  · intro hany
    rw [hcc]
    exact computeChildrenGo_win livesP estChildren posStr db c.nimber _ _ hany
  · intro hany hemp
    rw [hcc, computeChildrenGo_noloss livesP estChildren posStr db c.nimber _ _ hany,
      hemp]
    simp
  · intro hany hemp
    rw [hcc, computeChildrenGo_noloss livesP estChildren posStr db c.nimber _ _ hany]
    rw [if_neg (by simpa using hemp)]
    refine ⟨rfl, rfl, ?_⟩
    exact List.mergeSort_perm _ _

theorem PNV.add_ok_of_inf {a b : Nat} (h : a = INF ∨ b = INF) :
    PNV.add a b = .ok INF := by
  simp [PNV.add, h]

theorem PNV.add_ok_finite {a b r : Nat} (ha : a ≠ INF) (hb : b ≠ INF)
    (hble : b ≤ INF) (h : PNV.add a b = .ok r) : r = a + b ∧ a + b < INF := by
  simp only [PNV.add] at h
  rw [if_neg (by simp [ha, hb])] at h
  split at h
  · cases h
  · cases h
    omega

theorem uslpnGo_spec {L : Type} [DecidableEq L] (nl ov : Bool) :
    ∀ (children : List (MChild L)) (p d pr dr : Nat),
      (∀ c ∈ children, c.proof ≤ INF ∧ c.disproof ≤ INF) →
      p ≤ INF → d ≤ INF →
      uslpnGo nl ov children (p, d) = .ok (pr, dr) →
      pr = (if nl then children.foldl (fun a c => max a c.disproof) p
            else children.foldl (fun a c => if c.locked then a else min a c.disproof) p) ∧
      pr ≤ INF ∧
      dr = (if ov then children.foldl (fun a c => max a c.proof) d
            else if INF ∈ children.map (fun c => c.proof) ∨ d = INF then INF
            else d + (children.map (fun c => c.proof)).sum) ∧
      dr ≤ INF := by
  intro children
  induction children with
  | nil =>
    intro p d pr dr hb hp hd h
    simp only [uslpnGo] at h
    cases h
    refine ⟨by simp, hp, ?_, hd⟩
    by_cases hdi : d = INF
    · simp [hdi]
    · simp [hdi]
  | cons c rest ih =>
    intro p d pr dr hb hp hd h
    have hbc := hb c (by simp)
    have hbr : ∀ x ∈ rest, x.proof ≤ INF ∧ x.disproof ≤ INF :=
      fun x hx => hb x (by simp [hx])
    have hpstep :
        (if nl then PNV.vmax p c.disproof
         else if !c.locked then PNV.vmin p c.disproof else p) =
        (if nl then max p c.disproof
         else if c.locked then p else min p c.disproof) := by
      by_cases hnl : nl = true
      · simp [hnl, PNV.vmax_eq hp hbc.2]
      · rw [Bool.not_eq_true] at hnl
        by_cases hcl : c.locked = true
        · simp [hnl, hcl]
        · rw [Bool.not_eq_true] at hcl
          simp [hnl, hcl, PNV.vmin_eq hp hbc.2]
    have hpb : (if nl then max p c.disproof
        else if c.locked then p else min p c.disproof) ≤ INF := by
      by_cases hnl : nl = true
      · simp [hnl]
        omega
      · by_cases hcl : c.locked = true <;> simp [hnl, hcl] <;> omega
    have hpfold : ∀ q : Nat,
        (if nl then (c :: rest).foldl (fun a c => max a c.disproof) q
         else (c :: rest).foldl (fun a c => if c.locked then a else min a c.disproof) q) =
        (if nl then rest.foldl (fun a c => max a c.disproof) (max q c.disproof)
         else rest.foldl (fun a c => if c.locked then a else min a c.disproof)
           (if c.locked then q else min q c.disproof)) := by
      intro q
      by_cases hnl : nl = true
      · simp [hnl]
      · rw [Bool.not_eq_true] at hnl
        simp [hnl]
    by_cases hov : ov = true
    · subst hov
      simp only [uslpnGo] at h
      rw [if_neg (by decide)] at h
      have h2 : uslpnGo nl true rest
          ((if nl then PNV.vmax p c.disproof
            else if !c.locked then PNV.vmin p c.disproof else p),
           PNV.vmax d c.proof) = .ok (pr, dr) := h
      rw [hpstep, PNV.vmax_eq hd hbc.1] at h2
      obtain ⟨h3, h4, h5, h6⟩ := ih _ _ _ _ hbr hpb (by omega) h2
      refine ⟨?_, h4, ?_, h6⟩
      · rw [h3, hpfold]
        by_cases hnl : nl = true <;> simp [hnl]
      · rw [h5]
        simp
    · rw [Bool.not_eq_true] at hov
      subst hov
      simp only [uslpnGo] at h
      rw [if_pos (by decide)] at h
      cases hadd : PNV.add d c.proof with
      | error e =>
        rw [hadd] at h
        cases h
      | ok d1 =>
        rw [hadd] at h
        have h2 : uslpnGo nl false rest
            ((if nl then PNV.vmax p c.disproof
              else if !c.locked then PNV.vmin p c.disproof else p), d1) =
            .ok (pr, dr) := h
        rw [hpstep] at h2
        by_cases hfin : d = INF ∨ c.proof = INF
        · have hd1 : d1 = INF := by
            rw [PNV.add_ok_of_inf hfin] at hadd
            cases hadd
            rfl
          subst hd1
          obtain ⟨h3, h4, h5, h6⟩ := ih _ _ _ _ hbr hpb (Nat.le_refl _) h2
          refine ⟨?_, h4, ?_, h6⟩
          · rw [h3, hpfold]
            by_cases hnl : nl = true <;> simp [hnl]
          · have hcond : INF ∈ (c :: rest).map (fun c => c.proof) ∨ d = INF := by
              rcases hfin with hfin | hfin
              · exact Or.inr hfin
              · exact Or.inl (List.mem_map.mpr ⟨c, by simp, hfin⟩)
            rw [h5]
            rw [if_neg (show ¬ (false = true) from by decide)]
            rw [if_neg (show ¬ (false = true) from by decide)]
            rw [if_pos (show INF ∈ List.map (fun c => c.proof) rest ∨ INF = INF from
              Or.inr rfl)]
            rw [if_pos hcond]
        · push_neg at hfin
          obtain ⟨hd1, hlt⟩ := PNV.add_ok_finite hfin.1 hfin.2 hbc.1 hadd
          subst hd1
          obtain ⟨h3, h4, h5, h6⟩ := ih _ _ _ _ hbr hpb (by omega) h2
          refine ⟨?_, h4, ?_, h6⟩
          · rw [h3, hpfold]
            by_cases hnl : nl = true <;> simp [hnl]
          · rw [h5]
            rw [if_neg (show ¬ (false = true) from by decide)]
            rw [if_neg (show ¬ (false = true) from by decide)]
            by_cases hmem : INF ∈ rest.map (fun c => c.proof)
            · rw [if_pos (show INF ∈ List.map (fun c => c.proof) rest ∨
                  d + c.proof = INF from Or.inl hmem)]
              rw [if_pos (show INF ∈ List.map (fun c => c.proof) (c :: rest) ∨
                  d = INF from Or.inl (by
                    simp only [List.map_cons, List.mem_cons]
                    exact Or.inr hmem))]
            · have hn1 : ¬ (INF ∈ List.map (fun c => c.proof) rest ∨
                  d + c.proof = INF) := by
                intro hc
                rcases hc with hc | hc
                · exact hmem hc
                · omega
              have hn2 : ¬ (INF ∈ List.map (fun c => c.proof) (c :: rest) ∨
                  d = INF) := by
                intro hc
                rcases hc with hc | hc
                · simp only [List.map_cons, List.mem_cons] at hc
                  rcases hc with hc | hc
                  · exact hfin.2 hc.symm
                  · exact hmem hc
                · exact hfin.1 hc
              rw [if_neg hn1, if_neg hn2]
              simp only [List.map_cons, List.sum_cons]
              omega


theorem foldl_skip_locked {L : Type} [DecidableEq L] (children : List (MChild L)) :
    ∀ a : Nat,
      children.foldl (fun a c => if c.locked then a else min a c.disproof) a =
      ((children.filter (fun c => !c.locked)).map (fun c => c.disproof)).foldl min a := by
  induction children with
  | nil => intro a; rfl
  | cons c rest ih =>
    intro a
    by_cases hcl : c.locked = true
    · simp [List.foldl_cons, List.filter_cons, hcl, ih]
    · rw [Bool.not_eq_true] at hcl
      simp [List.foldl_cons, List.filter_cons, hcl, ih]

theorem updateSLPN_spec {L : Type} [DecidableEq L] (nl ov : Bool)
    (children : List (MChild L))
    (hb : ∀ c ∈ children, c.proof ≤ INF ∧ c.disproof ≤ INF)
    (hlen : children.length ≤ INF) (pr dr : Nat)
    (h : updateSingleLandProofNumbers nl ov children = .ok (pr, dr)) :
    pr = (if nl then (children.map (fun c => c.disproof)).foldl max 0
          else ((children.filter (fun c => !c.locked)).map
            (fun c => c.disproof)).foldl min INF) ∧
    (ov = false →
      dr = if INF ∈ children.map (fun c => c.proof) then INF
           else (children.map (fun c => c.proof)).sum) ∧
    (ov = true → children ≠ [] →
      dr = if (children.map (fun c => c.proof)).foldl max 0 = INF then INF
           else (children.map (fun c => c.proof)).foldl max 0 +
             (children.length - 1)) := by
  have hinf0 : (0 : Nat) ≠ INF := by decide
  cases hgo : uslpnGo nl ov children ((if !nl then INF else 0), 0) with
  | error e =>
    exfalso
    simp only [updateSingleLandProofNumbers, hgo] at h
    cases h
  | ok acc =>
    obtain ⟨pa, da⟩ := acc
    have hp0 : (if !nl then INF else 0) ≤ INF := by
      by_cases hnl : nl = true <;> simp [hnl]
    obtain ⟨h1, h2, h3, h4⟩ :=
      uslpnGo_spec nl ov children _ _ _ _ hb hp0 (by omega) hgo
    have hpr1 : pr = pa ∧
        (ov = false → dr = da) ∧
        (ov = true → PNV.add da (sizeTsub1 children.length) = .ok dr) := by
      simp only [updateSingleLandProofNumbers, hgo] at h
      by_cases hov : ov = true
      · subst hov
        have h' : (do
            let d ← PNV.add da (sizeTsub1 children.length)
            pure (pa, d) : Except PNErr (Nat × Nat)) = .ok (pr, dr) := h
        cases hadd : PNV.add da (sizeTsub1 children.length) with
        | error e => rw [hadd] at h'; cases h'
        | ok d2 =>
          rw [hadd] at h'
          have h'' : (Except.ok (pa, d2) : Except PNErr (Nat × Nat)) =
              .ok (pr, dr) := h'
          cases h''
          refine ⟨rfl, ?_, fun _ => rfl⟩
          intro hc
          cases hc
      · rw [Bool.not_eq_true] at hov
        subst hov
        have h' : (Except.ok (pa, da) : Except PNErr (Nat × Nat)) =
            .ok (pr, dr) := h
        cases h'
        refine ⟨rfl, fun _ => rfl, ?_⟩
        intro hc
        cases hc
    obtain ⟨hpr, hdr0, hdr1⟩ := hpr1
    refine ⟨?_, ?_, ?_⟩
    · rw [hpr, h1]
      by_cases hnl : nl = true
      · simp [hnl, List.foldl_map]
      · rw [Bool.not_eq_true] at hnl
        simp [hnl, foldl_skip_locked]
    · intro hov
      subst hov
      rw [hdr0 rfl, h3]
      rw [if_neg (show ¬ (false = true) from by decide)]
      by_cases hmem : INF ∈ children.map (fun c => c.proof)
      · rw [if_pos (show INF ∈ List.map (fun c => c.proof) children ∨ (0 : Nat) = INF
          from Or.inl hmem), if_pos hmem]
      · have hcn : ¬ (INF ∈ List.map (fun c => c.proof) children ∨ (0 : Nat) = INF) := by
          intro hc
          rcases hc with hc | hc
          · exact hmem hc
          · exact hinf0 hc
        rw [if_neg hcn, if_neg hmem]
        simp
    · intro hov hne
      subst hov
      have hadd := hdr1 rfl
      have hAeq : da = (children.map (fun c => c.proof)).foldl max 0 := by
        rw [h3, if_pos rfl, List.foldl_map]
      have hlen0 : children.length ≠ 0 := by
        intro hc
        exact hne (List.length_eq_zero.mp hc)
      have hsz : sizeTsub1 children.length = children.length - 1 := by
        simp [sizeTsub1, hlen0]
      have hszne : children.length - 1 ≠ INF := by omega
      by_cases hda : da = INF
      · rw [PNV.add_ok_of_inf (Or.inl hda)] at hadd
        cases hadd
        rw [if_pos (hAeq ▸ hda)]
      · rw [hsz] at hadd
        obtain ⟨hd2, _⟩ := PNV.add_ok_finite hda hszne (by omega) hadd
        rw [hd2, if_neg (hAeq ▸ hda), hAeq]

/-- C6: for an expanded, unproved, plain (single-component) node, the update
(`updateInfo`, which first recomputes the lock flag and then runs
`updateSingleLandProofNumbers`) sets `disproof = Σ child.proof` in saturating
arithmetic (or `max(child.proof) + |children| − 1` when the `overestimated`
flag is set), and sets `proof` to the minimum of `child.disproof` over
non-locked children, with the minimum replaced by a maximum over the (then
all-locked) children when the node itself becomes locked. -/
theorem updateInfo_plain_update {L : Type} [DecidableEq L] (n : MNode L)
    (hexp : n.expanded = true) (hnp : nodeIsProved n = false)
    (hplain : isMultiLandNode n = false)
    (hb : ∀ c ∈ n.children, c.proof ≤ INF ∧ c.disproof ≤ INF)
    (hlen : n.children.length ≤ INF)
    (n' : MNode L) (hok : updateInfo n = .ok n') :
    (n.overestimated = false →
      n'.disproof = if INF ∈ n.children.map (fun c => c.proof) then INF
                    else (n.children.map (fun c => c.proof)).sum) ∧
    (n.overestimated = true → n.children ≠ [] →
      n'.disproof =
        if (n.children.map (fun c => c.proof)).foldl max 0 = INF then INF
        else (n.children.map (fun c => c.proof)).foldl max 0 +
          (n.children.length - 1)) ∧
    (n.children.all (fun c => c.locked) = true →
      n'.proof = (n.children.map (fun c => c.disproof)).foldl max 0) ∧
    (n.children.all (fun c => c.locked) = false →
      n'.proof = ((n.children.filter (fun c => !c.locked)).map
        (fun c => c.disproof)).foldl min INF) := by
  have hcond : (nodeIsProved n || !n.expanded) = false := by
    simp [hnp, hexp]
  have hml : isMultiLandNode (updateLock n) = false := by
    simpa [isMultiLandNode, updateLock] using hplain
  rw [updateInfo, hcond] at hok
  simp only [Bool.false_eq_true, if_false, hml] at hok
  cases hr : updateSingleLandProofNumbers (updateLock n).locked
      (updateLock n).overestimated (updateLock n).children with
  | error e => rw [hr] at hok; cases hok
  | ok r =>
    rw [hr] at hok
    have hok' : ({ updateLock n with proof := r.1, disproof := r.2 } : MNode L) = n' := by
      cases hok
      rfl
    have hch : (updateLock n).children = n.children := rfl
    have hov : (updateLock n).overestimated = n.overestimated := rfl
    have hlk : (updateLock n).locked = n.children.all (fun c => c.locked) := rfl
    rw [hch, hov, hlk] at hr
    obtain ⟨hp, hd0, hd1⟩ := updateSLPN_spec _ _ _ hb hlen r.1 r.2 (by
      rw [← hr])
    have hnp' : n'.proof = r.1 := by rw [← hok']
    have hnd' : n'.disproof = r.2 := by rw [← hok']
    refine ⟨?_, ?_, ?_, ?_⟩
    · intro hovf
      rw [hnd']
      exact hd0 hovf
    · intro hovt hne
      rw [hnd']
      exact hd1 hovt hne
    · intro hall
      rw [hnp', hp, if_pos hall]
    · intro hall
      rw [hnp', hp, if_neg (by simp [hall])]

/-- Witness for C6: a plain expanded unproved node with one free child
(proof 3, disproof 4) and one locked child (proof 5, disproof 6): the update
yields disproof `3 + 5 = 8` and proof `min` over the non-locked child, 4. -/
theorem updateInfo_plain_update_witness :
    updateInfo
      (MNode.mk [1] 0 2 3 0 false true false 0
        [MChild.mk [2] 0 3 4 false, MChild.mk [3] 0 5 6 true]) =
      .ok (MNode.mk ([1] : Pos Nat) 0 4 8 0 false true false 0
        [MChild.mk [2] 0 3 4 false, MChild.mk [3] 0 5 6 true]) ∧
    (MNode.mk ([1] : Pos Nat) 0 4 8 0 false true false 0
      [MChild.mk [2] 0 3 4 false, MChild.mk [3] 0 5 6 true]).disproof = 8 ∧
    (MNode.mk ([1] : Pos Nat) 0 4 8 0 false true false 0
      [MChild.mk [2] 0 3 4 false, MChild.mk [3] 0 5 6 true]).proof = 4 := by
  have hok : updateInfo
      (MNode.mk [1] 0 2 3 0 false true false 0
        [MChild.mk [2] 0 3 4 false, MChild.mk [3] 0 5 6 true]) =
      .ok (MNode.mk ([1] : Pos Nat) 0 4 8 0 false true false 0
        [MChild.mk [2] 0 3 4 false, MChild.mk [3] 0 5 6 true]) := by
    rfl
  have h := updateInfo_plain_update
    (MNode.mk [1] 0 2 3 0 false true false 0
      [MChild.mk [2] 0 3 4 false, MChild.mk [3] 0 5 6 true])
    rfl (by decide) (by decide) (by decide) (by decide) _ hok
  refine ⟨hok, ?_, ?_⟩
  · have h2 := h.1 rfl
    rw [h2]
    decide
  · have h2 := h.2.2.2 (by decide)
    rw [h2]
    decide

/-- Counterexample to C3: `ProofNumbers::Value::operator-` does not saturate
on a finite underflow — `1 - 2` raises `std::underflow_error` instead of
saturating (while `INF - 5 = INF` and `INF - INF` fails fast as claimed). -/
theorem value_sub_underflow_counterexample :
    PNV.sub 1 2 = .error .underflow ∧
    PNV.sub INF 5 = .ok INF ∧
    PNV.sub INF INF = .error .underflow := by
  refine ⟨rfl, rfl, rfl⟩

theorem PNV.lt_true_elim {a b : Nat} (h : PNV.lt a b = true) :
    a ≠ INF ∧ (b = INF ∨ a < b) := by
  unfold PNV.lt at h
  by_cases h1 : a = INF
  · rw [if_pos h1] at h
    cases h
  · rw [if_neg h1] at h
    by_cases h2 : b = INF
    · exact ⟨h1, Or.inl h2⟩
    · rw [if_neg h2] at h
      exact ⟨h1, Or.inr (by simpa using h)⟩

theorem PNV.add_error_overflow {a b : Nat} {e : PNErr}
    (h : PNV.add a b = .error e) : e = .overflow := by
  unfold PNV.add at h
  split at h
  · cases h
  · split at h
    · cases h
      rfl
    · cases h

theorem PNV.sub_ok_exists {a b : Nat} (hb : b ≠ INF) (h2 : a = INF ∨ b ≤ a) :
    ∃ r, PNV.sub a b = .ok r := by
  unfold PNV.sub
  by_cases h1 : a = INF
  · rw [if_pos h1, if_neg hb]
    exact ⟨INF, rfl⟩
  · rw [if_neg h1]
    rcases h2 with h2 | h2
    · exact absurd h2 h1
    · rw [if_neg (by omega)]
      exact ⟨a - b, rfl⟩

theorem except_bind_ok {α β : Type} (a : α) (f : α → Except PNErr β) :
    (Except.ok a >>= f) = f a := rfl

theorem except_bind_error {α β : Type} (e : PNErr) (f : α → Except PNErr β) :
    ((Except.error e : Except PNErr α) >>= f) = .error e := rfl

theorem except_map_ok {α β : Type} (a : α) (f : α → β) :
    (f <$> (Except.ok a : Except PNErr α)) = .ok (f a) := rfl

theorem except_map_error {α β : Type} (e : PNErr) (f : α → β) :
    (f <$> (Except.error e : Except PNErr α)) = .error e := rfl

/-- C3 (amended): subtraction from `INF` of a finite value saturates to `INF`
and only `INF - INF` fails fast, but a finite subtraction that would
underflow raises an underflow error rather than saturating; nevertheless the
plain-node MPN threshold derivation (`mpnProofTh = disproofTh -
parentDisproof + mpnProof`, `mpnPShift = dShift + parentDisproof -
mpnProof`) never raises an underflow error when the parent thresholds hold
(`areHolding` returned true) and the MPN's proof is bounded by the parent's
disproof — which the plain update rule `disproof = Σ child.proof`
guarantees for every child, in particular the MPN. -/
theorem toPlainMpnThresholds_no_underflow (t : Thresholds)
    (parentProof parentDisproof mpnProof switchingTh : Nat)
    (hbd : parentDisproof ≤ INF) (hbm : mpnProof ≤ parentDisproof)
    (hhold : areHolding t parentProof parentDisproof = .ok true) :
    toPlainMpnThresholds t parentDisproof mpnProof switchingTh ≠
      .error .underflow := by
  have hlt2 : PNV.lt parentDisproof t.disproofTh = true := by
    unfold areHolding at hhold
    by_cases hc1 : PNV.lt parentProof t.proofTh = true
    · by_cases hc2 : PNV.lt parentDisproof t.disproofTh = true
      · exact hc2
      · rw [Bool.not_eq_true] at hc2
        rw [if_neg (by simp [hc1]), if_pos (by simp [hc2])] at hhold
        cases hhold
    · rw [Bool.not_eq_true] at hc1
      rw [if_pos (by simp [hc1])] at hhold
      cases hhold
  obtain ⟨hdne, hdlt⟩ := PNV.lt_true_elim hlt2
  have hmne : mpnProof ≠ INF := by
    intro hc
    subst hc
    omega
  obtain ⟨s1, hs1⟩ := PNV.sub_ok_exists (a := t.disproofTh)
    (b := parentDisproof) hdne (by omega)
  cases ha1 : PNV.add s1 mpnProof with
  | error e =>
    have he : e = .overflow := PNV.add_error_overflow ha1
    subst he
    simp only [toPlainMpnThresholds, hs1, except_bind_ok, ha1, except_bind_error]
    simp
  | ok mpnProofTh =>
    cases ha2 : PNV.add t.dShift parentDisproof with
    | error e =>
      have he : e = .overflow := PNV.add_error_overflow ha2
      subst he
      simp only [toPlainMpnThresholds, hs1, except_bind_ok, ha1, ha2,
        except_bind_error]
      simp
    | ok s2 =>
      have hs2ge : s2 = INF ∨ mpnProof ≤ s2 := by
        simp only [PNV.add] at ha2
        split at ha2
        · cases ha2
          exact Or.inl rfl
        · split at ha2
          · cases ha2
          · cases ha2
            exact Or.inr (by omega)
      obtain ⟨s3, hs3⟩ := PNV.sub_ok_exists (a := s2) (b := mpnProof) hmne
        (by rcases hs2ge with hx | hx
            · exact Or.inl hx
            · exact Or.inr hx)
      simp only [toPlainMpnThresholds, hs1, except_bind_ok, ha1, ha2, hs3,
        except_map_ok]
      intro hc
      cases hc

/-- Witness for C3: concrete holding thresholds where the derivation
succeeds. -/
theorem toPlainMpnThresholds_no_underflow_witness :
    areHolding (Thresholds.mk 10 10 0 0 INF) 3 4 = .ok true ∧
    (4 : Nat) ≤ INF ∧ (2 : Nat) ≤ 4 ∧
    toPlainMpnThresholds (Thresholds.mk 10 10 0 0 INF) 4 2 7 ≠
      .error .underflow := by
  refine ⟨rfl, by decide, by decide, ?_⟩
  exact toPlainMpnThresholds_no_underflow (Thresholds.mk 10 10 0 0 INF)
    3 4 2 7 (by decide) (by decide) rfl

theorem digitChar_toNat {d : Nat} (h : d < 10) : (Nat.digitChar d).toNat = 48 + d := by
  interval_cases d <;> decide

theorem digitChar_isDigit {d : Nat} (h : d < 10) :
    isDigitChar (Nat.digitChar d) = true := by
  interval_cases d <;> decide

theorem natToDigits_spec (n : Nat) :
    natToDigits n ≠ [] ∧ (∀ c ∈ natToDigits n, isDigitChar c = true) ∧
    (natToDigits n).foldl (fun a c => a * 10 + (c.toNat - 48)) 0 = n := by
  induction n using Nat.strong_induction_on with
  | _ n ih =>
    by_cases h : n < 10
    · rw [natToDigits, if_pos h]
      refine ⟨by simp, ?_, ?_⟩
      · intro c hc
        simp at hc
        subst hc
        exact digitChar_isDigit h
      · simp [digitChar_toNat h]
    · rw [natToDigits, if_neg h]
      obtain ⟨h1, h2, h3⟩ := ih (n / 10) (Nat.div_lt_self (by omega) (by omega))
      have hm : n % 10 < 10 := Nat.mod_lt _ (by omega)
      refine ⟨by simp, ?_, ?_⟩
      · intro c hc
        rcases List.mem_append.mp hc with hc | hc
        · exact h2 c hc
        · simp at hc
          subst hc
          exact digitChar_isDigit hm
      · rw [List.foldl_append, h3]
        simp [digitChar_toNat hm]
        omega

theorem takeWhile_digits (ds : List Char) (hd : ∀ c ∈ ds, isDigitChar c = true) :
    ds.takeWhile isDigitChar = ds := by
  induction ds with
  | nil => rfl
  | cons a rest ih =>
    rw [List.takeWhile_cons, if_pos (hd a (by simp))]
    rw [ih (fun c hc => hd c (by simp [hc]))]

theorem stoulModel_digits (ds : List Char) (hne : ds ≠ [])
    (hd : ∀ c ∈ ds, isDigitChar c = true) :
    stoulModel ds = some (ds.foldl (fun a c => a * 10 + (c.toNat - 48)) 0) := by
  rw [stoulModel]
  simp only [takeWhile_digits ds hd]
  rw [if_neg (by simp [hne])]

theorem findIdx_space (k ds : List Char) (hk : ' ' ∉ k) :
    (k ++ ' ' :: ds).findIdx (fun c => c = ' ') = k.length := by
  induction k with
  | nil => simp [List.findIdx_cons]
  | cons a rest ih =>
    have ha : (a = ' ') = False := by
      simp
      intro hc
      exact hk (by simp [hc])
    simp only [List.cons_append, List.findIdx_cons, ha, decide_False, cond_false]
    rw [ih (fun hc => hk (by simp [hc]))]
    rfl

theorem take_len_append (k rest : List Char) : (k ++ rest).take k.length = k := by
  induction k with
  | nil => rfl
  | cons a t ih => simp [ih]

theorem drop_len_succ_append (k : List Char) (c : Char) (ds : List Char) :
    (k ++ c :: ds).drop (k.length + 1) = ds := by
  induction k with
  | nil => rfl
  | cons a t ih => simp [ih]

theorem parseLine_encodeLine (k : List Char) (n : Nat) (hk : ' ' ∉ k)
    (hn : n < 256) : parseLine (encodeLine (k, n)) = some (k, n) := by
  obtain ⟨h1, h2, h3⟩ := natToDigits_spec n
  rw [parseLine]
  have he : encodeLine (k, n) = k ++ ' ' :: natToDigits n := rfl
  rw [he, findIdx_space k (natToDigits n) hk, take_len_append,
    drop_len_succ_append, stoulModel_digits _ h1 h2, h3]
  simp [Nat.mod_eq_of_lt hn]

theorem perm_map_inv {α β : Type} (f : α → β) :
    ∀ {l₁ l₂ : List β}, l₁.Perm l₂ → ∀ l' : List α, l₂ = l'.map f →
      ∃ l'' : List α, l₁ = l''.map f ∧ l''.Perm l' := by
  intro l₁ l₂ hp
  induction hp with
  | nil =>
    intro l' h
    have : l' = [] := List.map_eq_nil_iff.mp h.symm
    subst this
    exact ⟨[], rfl, List.Perm.refl []⟩
  | cons x h ih =>
    intro l' heq
    obtain ⟨a, as, hla, hfa, hmap⟩ := List.map_eq_cons_iff.mp heq.symm
    obtain ⟨m, hm1, hm2⟩ := ih as hmap.symm
    refine ⟨a :: m, by simp [hm1, hfa], ?_⟩
    rw [hla]
    exact List.Perm.cons a hm2
  | swap x y l =>
    intro l' heq
    obtain ⟨a, as, hla, hfa, hmap⟩ := List.map_eq_cons_iff.mp heq.symm
    obtain ⟨b, bs, hlb, hfb, hmap2⟩ := List.map_eq_cons_iff.mp hmap
    refine ⟨b :: a :: bs, by simp [hfa, hfb, hmap2.symm], ?_⟩
    rw [hla, hlb]
    exact List.Perm.swap a b bs
  | trans h₁ h₂ ih₁ ih₂ =>
    intro l' heq
    obtain ⟨m, hm1, hm2⟩ := ih₂ l' heq
    obtain ⟨m', hm'1, hm'2⟩ := ih₁ m hm1
    exact ⟨m', hm'1, hm'2.trans hm2⟩

theorem encodeLine_not_special (kv : List Char × Nat) :
    ¬ (encodeLine kv = headerLine ∨ encodeLine kv = misereHeader ∨
       encodeLine kv = []) := by
  have hsp : ' ' ∈ encodeLine kv := by
    simp [encodeLine]
  intro hc
  rcases hc with hc | hc | hc <;> rw [hc] at hsp
  · exact absurd hsp (by decide)
  · exact absurd hsp (by decide)
  · exact absurd hsp (by simp)

theorem loadFromLines_encoded :
    ∀ (kvs : List (List Char × Nat)) (acc : List (List Char × Nat)),
      (∀ kv ∈ kvs, ' ' ∉ kv.1 ∧ kv.2 < 256) →
      (∀ kv ∈ kvs, acc.lookup kv.1 = none) →
      (kvs.map (fun kv => kv.1)).Nodup →
      loadFromLines (kvs.map encodeLine) acc = acc ++ kvs := by
  intro kvs
  induction kvs with
  | nil =>
    intro acc _ _ _
    simp [loadFromLines]
  | cons kv rest ih =>
    intro acc hwf hacc hnd
    obtain ⟨k, n⟩ := kv
    obtain ⟨hk, hn⟩ := hwf (k, n) (by simp)
    have hlk : List.lookup k acc = none := hacc (k, n) (by simp)
    have hstepval : loadLineStep acc (encodeLine (k, n)) = acc ++ [(k, n)] := by
      rw [loadLineStep, if_neg (encodeLine_not_special (k, n)),
        parseLine_encodeLine k n hk hn]
      simp [hlk]
    have hstep : loadFromLines ((k, n) :: rest |>.map encodeLine) acc =
        loadFromLines (rest.map encodeLine) (acc ++ [(k, n)]) := by
      simp only [List.map_cons, loadFromLines, List.foldl_cons, hstepval]
    rw [hstep]
    have hknotin : ∀ kv' ∈ rest, kv'.1 ≠ k := by
      intro kv' hkv' hc
      simp only [List.map_cons, List.nodup_cons] at hnd
      exact hnd.1 (hc ▸ List.mem_map.mpr ⟨kv', hkv', rfl⟩)
    have hacc' : ∀ kv' ∈ rest, ((acc ++ [(k, n)]).lookup kv'.1) = none := by
      intro kv' hkv'
      rw [List.lookup_append, hacc kv' (by simp [hkv'])]
      have : (kv'.1 == k) = false := by
        simp [hknotin kv' hkv']
      simp [List.lookup, this]
    rw [ih (acc ++ [(k, n)]) (fun kv' h => hwf kv' (by simp [h])) hacc'
      (by simp only [List.map_cons, List.nodup_cons] at hnd; exact hnd.2)]
    simp

/-- C8: storing a database (header line plus one sorted `<positionCompact>
<nimberDecimal>` line per entry) and loading the result into an empty
database yields the same set of (position, nimber) pairs, up to order —
provided the compact position strings contain no space (true of the Sprouts
compact encoding) and the stored nimbers are `uint8` values. -/
theorem store_load_roundtrip (db : List (List Char × Nat))
    (hwf : ∀ kv ∈ db, ' ' ∉ kv.1 ∧ kv.2 < 256)
    (hnd : (db.map (fun kv => kv.1)).Nodup) :
    (loadFromLines (storeLines db) []).Perm db := by
  rw [storeLines]
  have hh : loadLineStep [] headerLine = [] := by
    simp [loadLineStep]
  have hskip : loadFromLines
      (headerLine :: (db.map encodeLine).mergeSort lineLe) [] =
      loadFromLines ((db.map encodeLine).mergeSort lineLe) [] := by
    simp only [loadFromLines, List.foldl_cons, hh]
  rw [hskip]
  obtain ⟨db2, hmap, hdb2⟩ := perm_map_inv encodeLine
    (List.mergeSort_perm (db.map encodeLine) lineLe) db rfl
  rw [hmap]
  have hwf2 : ∀ kv ∈ db2, ' ' ∉ kv.1 ∧ kv.2 < 256 :=
    fun kv hkv => hwf kv (hdb2.mem_iff.mp hkv)
  have hnd2 : (db2.map (fun kv => kv.1)).Nodup :=
    ((hdb2.map (fun kv => kv.1)).nodup_iff).mpr hnd
  rw [loadFromLines_encoded db2 [] hwf2 (by simp) hnd2]
  simpa using hdb2

/-- Witness for C8: a two-entry database round-trips. -/
theorem store_load_roundtrip_witness :
    (' ' ∉ (['a', 'b'] : List Char)) ∧
    (loadFromLines (storeLines [(['a', 'b'], 3), (['c'], 200)]) []).Perm
      [(['a', 'b'], 3), (['c'], 200)] := by
  refine ⟨by decide, ?_⟩
  exact store_load_roundtrip [(['a', 'b'], 3), (['c'], 200)] (by decide) (by decide)

/-- Witness for C5: a single-land couple with nimber 2 and two surviving
position children under the empty database. -/
theorem computeChildren_cases_witness :
    posIsTerminal ([1] : Pos Nat) = false ∧
    ([[2], [3]].any (isLossFold (fun _ => none) 2) = false) ∧
    (computeChildren (fun p => p.length) (fun _ => 0) (fun _ => [])
      (fun p => if p = [1] then [[2], [3]] else []) (fun _ => none)
      (Couple.mk [1] 2)).1 = .Unknown ∧
    (computeChildren (fun p => p.length) (fun _ => 0) (fun _ => [])
      (fun p => if p = [1] then [[2], [3]] else []) (fun _ => none)
      (Couple.mk [1] 2)).2 =
      [Couple.mk [1] 0, Couple.mk [1] 1, Couple.mk [2] 2, Couple.mk [3] 2] := by
  refine ⟨by decide, by decide, ?_, ?_⟩
  · exact ((computeChildren_cases (fun p => p.length) (fun _ => 0) (fun _ => [])
      (fun p => if p = [1] then [[2], [3]] else []) (fun _ => none)
      (Couple.mk [1] 2) (by decide)).2.2 (by decide) (by decide)).1
  · have h := ((computeChildren_cases (fun p => p.length) (fun _ => 0) (fun _ => [])
      (fun p => if p = [1] then [[2], [3]] else []) (fun _ => none)
      (Couple.mk [1] 2) (by decide)).2.2 (by decide) (by decide)).2.1
    rw [h]
    simp [List.mergeSort, List.merge, coupleLe, coupleCmp, nimChildren,
      survivingFolds, foldedChild, mergeComputedLands, mergeLandsFold,
      getSubgames, posOfPositions, posEmpty, posIsTerminal, List.range_succ,
      coupleStr, strLtB, natToDigits, Nat.digitChar]

end Spots
